import Mathlib

set_option linter.unusedVariables false

/-! Shallow embedding of the Tari wallet Output Manager service
(`src/base_layer/wallet/src/output_manager_service/service.rs`) and of the
store / key-manager contracts it consumes (spec sections 4.1 and 4.2).

Modelling conventions:
* `MicroTari` amounts, block heights, transaction ids and request keys are `Nat`.
* Spending keys are identified by their derivation index: the key manager's
  derivation (external crate `tari_key_manager`, not under `src/`) is, per the
  spec, an infallible deterministic HKDF-style derivation from
  `(master_seed, branch_seed, index)`, so the index determines the key.
* `Fee::calculate` and the hash of an output's canonical `TransactionOutput`
  form live in `tari_core`, outside `src/`; the spec treats them as opaque, so
  they are abstract function parameters carried in a `Ctx`.
* Randomness (`OsRng`), builder-produced transaction ids and the success of the
  external transaction builder and of store persistence are oracles passed as
  explicit arguments, which lets theorems quantify over every outcome.
* Stateful handlers return a `HandlerResult`: the new service state, the list
  of store mutations performed (in code order), the events published, the
  timeout tickets pushed, and the `Result` value. -/

/-- An unblinded output: value in MicroTari, spending key (as its derivation
index) and its feature set, reduced to the `maturity` height. The coinbase
flag plays no role in any claim. -/
structure UnblindedOutput where
  value : Nat
  spending_key : Nat
  maturity : Nat
deriving DecidableEq

/-- A `PendingTransactionOutputs` record of the store (spec section 3):
outputs to be spent and to be received by transaction `tx_id`.  `short_term`
is `true` while the spent outputs are `ShortTermEncumbered` and `false` once
`confirm_encumbered_outputs` has promoted them to `Encumbered`. -/
structure PendingTxRecord where
  tx_id : Nat
  outputs_to_be_spent : List UnblindedOutput
  outputs_to_be_received : List UnblindedOutput
  short_term : Bool
deriving DecidableEq

/-- The persistent `OutputStore` state the claims are about: the persisted
`primary_key_index` of the `KeyManagerState`, the `Unspent` and `Invalid`
partitions and the pending-transaction records (whose `outputs_to_be_spent`
form the encumbered partitions and whose `outputs_to_be_received` form
`PendingIncoming`).  Modelled from the spec (section 4.2): the storage backend
is external to `src/`. -/
structure Store where
  primary_key_index : Nat
  unspent : List UnblindedOutput
  invalid : List UnblindedOutput
  pending : List PendingTxRecord
deriving DecidableEq

/-- A store mutation, in one-to-one correspondence with the mutating
`OutputManagerDatabase` calls the service makes. -/
inductive StoreEvent
  | incrementKeyIndex
  | addUnspentOutput (uo : UnblindedOutput)
  | acceptIncoming (tx_id amount key maturity : Nat)
  | encumberOutputs (tx_id : Nat) (outputs_to_send outputs_to_receive : List UnblindedOutput)
  | confirmEncumbered (tx_id : Nat)
  | cancelPending (tx_id : Nat)
  | invalidateOutput (uo : UnblindedOutput)
deriving DecidableEq

/-- Effect of one store operation, modelled from the spec's `OutputStore`
contract table (section 4.2).  `invalidateOutput` moves an output from
`Unspent` to `Invalid`; `encumberOutputs` removes the spent outputs from
`Unspent` and creates the pending record in short-term state;
`confirmEncumbered` promotes the record of the given transaction. -/
def applyStoreEvent (st : Store) : StoreEvent → Store
  | .incrementKeyIndex => { st with primary_key_index := st.primary_key_index + 1 }
  | .addUnspentOutput uo => { st with unspent := st.unspent ++ [uo] }
  | .acceptIncoming tx_id amount key maturity =>
      { st with pending := st.pending ++ [⟨tx_id, [], [⟨amount, key, maturity⟩], true⟩] }
  | .encumberOutputs tx_id outputs_to_send outputs_to_receive =>
      { st with
        unspent := st.unspent.filter (fun uo => decide (uo ∉ outputs_to_send)),
        pending := st.pending ++ [⟨tx_id, outputs_to_send, outputs_to_receive, true⟩] }
  | .confirmEncumbered tx_id =>
      let promote := fun (r : PendingTxRecord) =>
        if r.tx_id = tx_id then { r with short_term := false } else r
      { st with pending := st.pending.map promote }
  | .cancelPending tx_id =>
      let cancelled := st.pending.filter (fun r => decide (r.tx_id = tx_id))
      let restored := cancelled.foldl (fun acc r => acc ++ r.outputs_to_be_spent) []
      { st with
        unspent := st.unspent ++ restored,
        pending := st.pending.filter (fun r => decide (r.tx_id ≠ tx_id)) }
  | .invalidateOutput uo =>
      { st with unspent := st.unspent.erase uo, invalid := st.invalid ++ [uo] }

/-- Apply a trace of store mutations in order. -/
def applyTrace (st : Store) (tr : List StoreEvent) : Store :=
  tr.foldl applyStoreEvent st

/-- The error variants of `OutputManagerError` the claims mention.  Message
payloads are dropped. -/
inductive OutputManagerError
  | StorageError
  | BuildError
  | NotEnoughFunds
  | IncompleteTransaction
  | NoBaseNodeKeysProvided
  | ConversionError
deriving DecidableEq

/-- The events published by the service. -/
inductive OutputManagerEvent
  | receiveBaseNodeResponse (request_key : Nat)
  | baseNodeSyncRequestTimedOut (request_key : Nat)
deriving DecidableEq

/-- One output carried in a `BaseNodeServiceResponse` payload: either it
converts to a `TransactionOutput` (in which case only its hash matters to the
handler) or the conversion fails. -/
inductive RespOutput
  | valid (hash : Nat)
  | malformed
deriving DecidableEq

/-- An inbound `BaseNodeServiceResponse`.  `response = some outputs` is the
`TransactionOutputs` variant; `none` stands for every other variant, which the
handler drops. -/
structure BaseNodeResponse where
  request_key : Nat
  response : Option (List RespOutput)
deriving DecidableEq

/-- The transaction object assembled by the external builder, reduced to the
data the claims inspect: the fed inputs and the pushed outputs. -/
structure ModelTransaction where
  inputs : List UnblindedOutput
  outputs : List UnblindedOutput
deriving DecidableEq

/-- Abstract context: `fee g k i o` is `Fee::calculate(fee_per_gram g,
num_kernels k, num_inputs i, num_outputs o)` and `hashOf uo` is the hash of
`uo`'s canonical `TransactionOutput` form.  Both functions live in `tari_core`
outside `src/`; the spec treats them as opaque, so claims are quantified over
them. -/
structure Ctx where
  fee : Nat → Nat → Nat → Nat → Nat
  hashOf : UnblindedOutput → Nat

/-- The comparator of `UTXOSelectionStrategy::MaturityThenSmallest`:
maturity ascending, ties broken by value ascending.  `maturityValueLe a b`
holds exactly when the source comparator returns `Less` or `Equal` on
`(a, b)`. -/
def maturityValueLe (a b : UnblindedOutput) : Prop :=
  a.maturity < b.maturity ∨ (a.maturity = b.maturity ∧ a.value ≤ b.value)

instance instDecMaturityValueLe : DecidableRel maturityValueLe := fun a b =>
  inferInstanceAs (Decidable (a.maturity < b.maturity ∨ (a.maturity = b.maturity ∧ a.value ≤ b.value)))

instance instTotalMaturityValueLe : IsTotal UnblindedOutput maturityValueLe :=
  ⟨fun a b => by unfold maturityValueLe; omega⟩

instance instTransMaturityValueLe : IsTrans UnblindedOutput maturityValueLe :=
  ⟨fun a b c hab hbc => by unfold maturityValueLe at hab hbc ⊢; omega⟩

/-- The two UTXO selection strategies of the service. -/
inductive UTXOSelectionStrategy
  | Smallest
  | MaturityThenSmallest
deriving DecidableEq

/-- Ordering step of `select_utxos`: `Smallest` keeps the store order (the
store already returns outputs sorted by value), `MaturityThenSmallest`
stable-sorts with the maturity-then-value comparator, exactly as the Rust
`sort_by` call does (a stable sort under a total preorder has a unique
result, so insertion sort is extensionally the Rust sort). -/
def sortByStrategy : UTXOSelectionStrategy → List UnblindedOutput → List UnblindedOutput
  | .Smallest, uo => uo
  | .MaturityThenSmallest, uo => List.insertionSort maturityValueLe uo

/-- The mutable locals of the `select_utxos` accumulation loop. -/
structure SelAcc where
  utxos : List UnblindedOutput
  total : Nat
  fee_without_change : Nat
  fee_with_change : Nat
  require_change_output : Bool
deriving DecidableEq

/-- The `for o in uo.iter()` loop of `select_utxos` (service.rs lines
714-727): push the output, add its value, recompute `fee_without_change`,
break on the exact-amount condition, otherwise recompute `fee_with_change`
and break (setting `require_change_output`) on the with-change condition. -/
def selectLoop (ctx : Ctx) (amount fee_per_gram output_count : Nat) :
    List UnblindedOutput → SelAcc → SelAcc
  | [], acc => acc
  | o :: rest, acc =>
    let utxos := acc.utxos ++ [o]
    let total := acc.total + o.value
    let feeNC := ctx.fee fee_per_gram 1 utxos.length output_count
    if total = amount + feeNC then
      { utxos := utxos, total := total, fee_without_change := feeNC,
        fee_with_change := acc.fee_with_change,
        require_change_output := acc.require_change_output }
    else
      let feeWC := ctx.fee fee_per_gram 1 utxos.length (output_count + 1)
      if amount + feeWC ≤ total then
        { utxos := utxos, total := total, fee_without_change := feeNC,
          fee_with_change := feeWC, require_change_output := true }
      else
        selectLoop ctx amount fee_per_gram output_count rest
          { utxos := utxos, total := total, fee_without_change := feeNC,
            fee_with_change := feeWC,
            require_change_output := acc.require_change_output }

/-- The check `select_utxos` performs after the loop (lines 729-733). -/
def selFinish (amount : Nat) (acc : SelAcc) :
    Except OutputManagerError (List UnblindedOutput × Bool) :=
  if acc.total ≠ amount + acc.fee_without_change ∧ acc.total < amount + acc.fee_with_change then
    .error .NotEnoughFunds
  else
    .ok (acc.utxos, acc.require_change_output)

/-- `select_utxos` (service.rs lines 683-734), as a pure function of the
fetched unspent outputs.  It only reads the store. -/
def select_utxos (ctx : Ctx) (amount fee_per_gram output_count : Nat)
    (strategy : UTXOSelectionStrategy) (unspent : List UnblindedOutput) :
    Except OutputManagerError (List UnblindedOutput × Bool) :=
  selFinish amount
    (selectLoop ctx amount fee_per_gram output_count (sortByStrategy strategy unspent)
      ⟨[], 0, 0, 0, false⟩)

/-- Interpret the outcome of the claimed selection loop as the service's
result type: exhaustion with neither condition met is `NotEnoughFunds`. -/
def toSelResult : Option (List UnblindedOutput × Bool) →
    Except OutputManagerError (List UnblindedOutput × Bool)
  | some r => .ok r
  | none => .error .NotEnoughFunds

/-- Claim C1's description of the selection loop, following the spec's words:
immediately after each append, return `(inputs, false)` on the exact-amount
condition, `(inputs, true)` on the with-change condition; `none` when the
candidates are exhausted with neither condition met. -/
def selectSpecLoop (ctx : Ctx) (amount fee_per_gram output_count : Nat) :
    List UnblindedOutput → List UnblindedOutput → Nat → Option (List UnblindedOutput × Bool)
  | [], _, _ => none
  | o :: rest, inputs, total =>
    let inputs' := inputs ++ [o]
    let total' := total + o.value
    if total' = amount + ctx.fee fee_per_gram 1 inputs'.length output_count then
      some (inputs', false)
    else if amount + ctx.fee fee_per_gram 1 inputs'.length (output_count + 1) ≤ total' then
      some (inputs', true)
    else
      selectSpecLoop ctx amount fee_per_gram output_count rest inputs' total'

/-- Claim C1's `select_utxos`, as the claim states it: run the loop over the
strategy-ordered candidates and fail with `NotEnoughFunds` when they are
exhausted with neither condition met. -/
def select_utxos_spec (ctx : Ctx) (amount fee_per_gram output_count : Nat)
    (strategy : UTXOSelectionStrategy) (unspent : List UnblindedOutput) :
    Except OutputManagerError (List UnblindedOutput × Bool) :=
  toSelResult
    (selectSpecLoop ctx amount fee_per_gram output_count
      (sortByStrategy strategy unspent) [] 0)

/-- Claim C1 amended: identical to `select_utxos_spec` except that exhaustion
with no appended candidate (an empty unspent list) and `amount = 0` returns
`([], false)` instead of failing. -/
def select_utxos_spec_amended (ctx : Ctx) (amount fee_per_gram output_count : Nat)
    (strategy : UTXOSelectionStrategy) (unspent : List UnblindedOutput) :
    Except OutputManagerError (List UnblindedOutput × Bool) :=
  if unspent = [] then
    (if amount = 0 then .ok ([], false) else .error .NotEnoughFunds)
  else
    select_utxos_spec ctx amount fee_per_gram output_count strategy unspent

/-- Sum of the values of a list of outputs (the `fold` the service uses). -/
def sumValues (l : List UnblindedOutput) : Nat :=
  l.foldl (fun acc x => acc + x.value) 0

/-- The in-memory state of the service actor: the store, the in-memory key
manager index (`key_manager` field), whether `base_node_public_key` is set
(its identity is irrelevant to the claims) and the in-flight
`pending_utxo_query_keys` map. -/
structure SvcState where
  store : Store
  key_manager_index : Nat
  base_node_key_set : Bool
  pending_utxo_query_keys : List (Nat × List Nat)
deriving DecidableEq

deriving instance DecidableEq for Except

/-- What a handler call produces: the new state, the store mutations it
performed in code order, the events it published, the timeout tickets it
pushed onto the timeout stream (identified by their request key), and its
return value. -/
structure HandlerResult (α : Type) where
  state : SvcState
  trace : List StoreEvent
  events : List OutputManagerEvent
  tickets : List Nat
  result : Except OutputManagerError α
deriving DecidableEq

/-- `HashMap::get`-style lookup in the pending-query map. -/
def lookupQuery (k : Nat) : List (Nat × List Nat) → Option (List Nat)
  | [] => none
  | (k', v) :: rest => if k' = k then some v else lookupQuery k rest

/-- `HashMap::remove`: drop the binding of `k`. -/
def removeQuery (k : Nat) (m : List (Nat × List Nat)) : List (Nat × List Nat) :=
  m.filter (fun p => decide (p.1 ≠ k))

/-- `HashMap::insert`: overwrite any existing binding of `k`. -/
def insertQuery (k : Nat) (v : List Nat) (m : List (Nat × List Nat)) : List (Nat × List Nat) :=
  removeQuery k m ++ [(k, v)]

/-- `HashMap::insert` on the `output_hashes` map of
`handle_base_node_response`: overwrite any existing binding. -/
def insertHash (k : Nat) (v : UnblindedOutput) (m : List (Nat × UnblindedOutput)) :
    List (Nat × UnblindedOutput) :=
  m.filter (fun p => decide (p.1 ≠ k)) ++ [(k, v)]

/-- `HashMap::remove` on the `output_hashes` map. -/
def eraseHash (k : Nat) (m : List (Nat × UnblindedOutput)) : List (Nat × UnblindedOutput) :=
  m.filter (fun p => decide (p.1 ≠ k))

/-- Lines 326-332: build the map from hash to unspent output, restricted to
the hashes that were queried. -/
def buildOutputHashes (ctx : Ctx) (unspent : List UnblindedOutput) (queried : List Nat) :
    List (Nat × UnblindedOutput) :=
  unspent.foldl
    (fun m uo =>
      if ctx.hashOf uo ∈ queried then insertHash (ctx.hashOf uo) uo m else m)
    []

/-- Lines 335-341: for each output in the response payload convert it (the
`?` aborts the whole handler with `ConversionError` on the first malformed
output) and remove its hash from the map. -/
def removeResponseHashes :
    List (Nat × UnblindedOutput) → List RespOutput →
    Except OutputManagerError (List (Nat × UnblindedOutput))
  | m, [] => .ok m
  | m, .valid h :: rest => removeResponseHashes (eraseHash h m) rest
  | _, .malformed :: _ => .error .ConversionError

/-- The hashes of the outputs of a payload that convert successfully. -/
def validHashes : List RespOutput → List Nat
  | [] => []
  | .valid h :: rest => h :: validHashes rest
  | .malformed :: rest => validHashes rest

/-- `handle_base_node_response` (service.rs lines 291-371).  Unknown response
variants are dropped before the key check; a response whose `request_key` is
not pending is ignored; otherwise the pending entry is consumed, the
remaining queried-but-unreturned unspent outputs are invalidated and a
`ReceiveBaseNodeResponse` event is published. -/
def handle_base_node_response (ctx : Ctx) (s : SvcState) (resp : BaseNodeResponse) :
    HandlerResult Unit :=
  match resp.response with
  | none => { state := s, trace := [], events := [], tickets := [], result := .ok () }
  | some outputs =>
    match lookupQuery resp.request_key s.pending_utxo_query_keys with
    | none => { state := s, trace := [], events := [], tickets := [], result := .ok () }
    | some queried_hashes =>
      let s1 := { s with
        pending_utxo_query_keys := removeQuery resp.request_key s.pending_utxo_query_keys }
      let output_hashes := buildOutputHashes ctx s1.store.unspent queried_hashes
      match removeResponseHashes output_hashes outputs with
      | .error e =>
        { state := s1, trace := [], events := [], tickets := [], result := .error e }
      | .ok remaining =>
        let tr := remaining.map (fun p => StoreEvent.invalidateOutput p.2)
        { state := { s1 with store := applyTrace s1.store tr }, trace := tr,
          events := [.receiveBaseNodeResponse resp.request_key], tickets := [],
          result := .ok () }

/-- `query_unspent_outputs_status` (lines 403-448).  `fresh_key` stands for
the random `OsRng.next_u64()` request key; the outbound direct send is
external and modelled as succeeding.  On success the handler registers the
pending query and pushes its timeout ticket. -/
def query_unspent_outputs_status (ctx : Ctx) (s : SvcState) (fresh_key : Nat) :
    HandlerResult Nat :=
  if s.base_node_key_set then
    let output_hashes := s.store.unspent.map ctx.hashOf
    { state := { s with
        pending_utxo_query_keys := insertQuery fresh_key output_hashes s.pending_utxo_query_keys },
      trace := [], events := [], tickets := [fresh_key], result := .ok fresh_key }
  else
    { state := s, trace := [], events := [], tickets := [],
      result := .error .NoBaseNodeKeysProvided }

/-- `handle_utxo_query_timeout` (lines 374-399): a no-op unless the key is
still pending; otherwise consume the entry, start a fresh query (its failure
propagates before the event is sent, exactly as the `?` in the source does)
and publish `BaseNodeSyncRequestTimedOut`. -/
def handle_utxo_query_timeout (ctx : Ctx) (s : SvcState) (query_key fresh_key : Nat) :
    HandlerResult Unit :=
  match lookupQuery query_key s.pending_utxo_query_keys with
  | none => { state := s, trace := [], events := [], tickets := [], result := .ok () }
  | some _ =>
    let s1 := { s with
      pending_utxo_query_keys := removeQuery query_key s.pending_utxo_query_keys }
    let q := query_unspent_outputs_status ctx s1 fresh_key
    match q.result with
    | .error e =>
      { state := q.state, trace := q.trace, events := [], tickets := q.tickets,
        result := .error e }
    | .ok _ =>
      { state := q.state, trace := q.trace,
        events := [.baseNodeSyncRequestTimedOut query_key], tickets := q.tickets,
        result := .ok () }

/-- `set_base_node_public_key` (lines 738-752): remember the key and, on the
first assignment only, trigger a query. -/
def set_base_node_public_key (ctx : Ctx) (s : SvcState) (fresh_key : Nat) :
    HandlerResult Unit :=
  let startup_query := s.base_node_key_set = false
  let s1 := { s with base_node_key_set := true }
  if startup_query then
    let q := query_unspent_outputs_status ctx s1 fresh_key
    match q.result with
    | .error e =>
      { state := q.state, trace := q.trace, events := [], tickets := q.tickets,
        result := .error e }
    | .ok _ =>
      { state := q.state, trace := q.trace, events := [], tickets := q.tickets,
        result := .ok () }
  else
    { state := s1, trace := [], events := [], tickets := [], result := .ok () }

/-- `add_output` (lines 451-453). -/
def add_output (s : SvcState) (uo : UnblindedOutput) : HandlerResult Unit :=
  let tr := [StoreEvent.addUnspentOutput uo]
  { state := { s with store := applyTrace s.store tr }, trace := tr, events := [],
    tickets := [], result := .ok () }

/-- `confirm_encumberance` (lines 616-620). -/
def confirm_encumberance (s : SvcState) (tx_id : Nat) : HandlerResult Unit :=
  let tr := [StoreEvent.confirmEncumbered tx_id]
  { state := { s with store := applyTrace s.store tr }, trace := tr, events := [],
    tickets := [], result := .ok () }

/-- `cancel_transaction` (lines 668-674). -/
def cancel_transaction (s : SvcState) (tx_id : Nat) : HandlerResult Unit :=
  let tr := [StoreEvent.cancelPending tx_id]
  { state := { s with store := applyTrace s.store tr }, trace := tr, events := [],
    tickets := [], result := .ok () }

/-- `get_recipient_spending_key` (lines 462-481): derive the next key (the
in-memory key-manager index advances, spec section 4.1), persist the index
(`persist_ok` is the storage oracle; on failure the `?` aborts with
`StorageError` and nothing is rolled back), record the incoming pending
transaction and promote its encumberance. -/
def get_recipient_spending_key (s : SvcState) (tx_id amount : Nat) (persist_ok : Bool) :
    HandlerResult Nat :=
  let key := s.key_manager_index
  let s1 := { s with key_manager_index := s.key_manager_index + 1 }
  if persist_ok then
    let tr : List StoreEvent :=
      [.incrementKeyIndex, .acceptIncoming tx_id amount key 0, .confirmEncumbered tx_id]
    { state := { s1 with store := applyTrace s1.store tr }, trace := tr, events := [],
      tickets := [], result := .ok key }
  else
    { state := s1, trace := [], events := [], tickets := [], result := .error .StorageError }

/-- `get_coinbase_spending_key` (lines 488-513): as the recipient key but
with coinbase features carrying the maturity height, and without the
encumberance promotion. -/
def get_coinbase_spending_key (s : SvcState) (tx_id amount maturity_height : Nat)
    (persist_ok : Bool) : HandlerResult Nat :=
  let key := s.key_manager_index
  let s1 := { s with key_manager_index := s.key_manager_index + 1 }
  if persist_ok then
    let tr : List StoreEvent :=
      [.incrementKeyIndex, .acceptIncoming tx_id amount key maturity_height]
    { state := { s1 with store := applyTrace s1.store tr }, trace := tr, events := [],
      tickets := [], result := .ok key }
  else
    { state := s1, trace := [], events := [], tickets := [], result := .error .StorageError }

/-- `prepare_transaction_to_send` (lines 544-612).  `build_ok` is the
external builder oracle (`builder.build` rejection surfaces `BuildError`),
`tx_id` the builder-assigned transaction id.  When the selected total exceeds
`amount + fee_without_change` a change key is issued and persisted BEFORE the
build; the change output value is the builder's amount-to-self (modelled from
the spec, section 4.4: total minus amount minus fee). -/
def prepare_transaction_to_send (ctx : Ctx) (s : SvcState) (amount fee_per_gram : Nat)
    (lock_height : Option Nat) (build_ok persist_ok : Bool) (tx_id : Nat) :
    HandlerResult ModelTransaction :=
  match select_utxos ctx amount fee_per_gram 1 .MaturityThenSmallest s.store.unspent with
  | .error e => { state := s, trace := [], events := [], tickets := [], result := .error e }
  | .ok (outputs, _) =>
    let total := sumValues outputs
    let fee_without_change := ctx.fee fee_per_gram 1 outputs.length 1
    if amount + fee_without_change < total then
      let key := s.key_manager_index
      let s1 := { s with key_manager_index := s.key_manager_index + 1 }
      if persist_ok then
        if build_ok then
          let change_output : List UnblindedOutput :=
            [⟨total - (amount + fee_without_change), key, 0⟩]
          let tr : List StoreEvent :=
            [.incrementKeyIndex, .encumberOutputs tx_id outputs change_output]
          { state := { s1 with store := applyTrace s1.store tr }, trace := tr,
            events := [], tickets := [], result := .ok ⟨outputs, change_output⟩ }
        else
          let tr : List StoreEvent := [.incrementKeyIndex]
          { state := { s1 with store := applyTrace s1.store tr }, trace := tr,
            events := [], tickets := [], result := .error .BuildError }
      else
        { state := s1, trace := [], events := [], tickets := [],
          result := .error .StorageError }
    else
      if build_ok then
        let tr : List StoreEvent := [.encumberOutputs tx_id outputs []]
        { state := { s with store := applyTrace s.store tr }, trace := tr, events := [],
          tickets := [], result := .ok ⟨outputs, []⟩ }
      else
        { state := s, trace := [], events := [], tickets := [], result := .error .BuildError }

/-- `MicroTari::checked_sub`. -/
def checkedSub (a b : Nat) : Option Nat :=
  if b ≤ a then some (a - b) else none

/-- The `for i in 0..output_count` loop of `create_coin_split` (lines
824-840), recursing on the number of outputs still to build.  Each step
derives the next key (the in-memory index advances), then persists the index;
a persistence failure aborts the loop.  Returns the final in-memory index,
the built outputs, the number of persisted increments and whether the loop
completed. -/
def coinSplitLoop (amount_per_split split_count change_value : Nat) (persist_ok : Bool) :
    Nat → Nat → List UnblindedOutput → Nat × List UnblindedOutput × Nat × Bool
  | 0, km, outs => (km, outs, 0, true)
  | n + 1, km, outs =>
    let output_amount := if outs.length < split_count then amount_per_split else change_value
    let key := km
    if persist_ok then
      let r := coinSplitLoop amount_per_split split_count change_value persist_ok n (km + 1)
        (outs ++ [⟨output_amount, key, 0⟩])
      (r.1, r.2.1, r.2.2.1 + 1, r.2.2.2)
    else
      (km + 1, outs, 0, false)

/-- `create_coin_split` (lines 772-860): select for the total split amount,
recompute the output count and fee when change is required, compute the
change value with checked subtraction, build the outputs (issuing and
persisting one key each), build and finalize the transaction, encumber the
inputs against all the outputs and immediately confirm the encumberance;
return `(tx_id, tx, fee, utxo_total)`. -/
def create_coin_split (ctx : Ctx) (s : SvcState)
    (amount_per_split split_count fee_per_gram : Nat) (lock_height : Option Nat)
    (build_ok persist_ok : Bool) (tx_id : Nat) :
    HandlerResult (Nat × ModelTransaction × Nat × Nat) :=
  let total_split_amount := amount_per_split * split_count
  match select_utxos ctx total_split_amount fee_per_gram split_count
      .MaturityThenSmallest s.store.unspent with
  | .error e => { state := s, trace := [], events := [], tickets := [], result := .error e }
  | .ok (inputs, require_change_output) =>
    let utxo_total := sumValues inputs
    let input_count := inputs.length
    let output_count := if require_change_output then split_count + 1 else split_count
    let fee := ctx.fee fee_per_gram 1 input_count output_count
    match checkedSub utxo_total fee with
    | none => { state := s, trace := [], events := [], tickets := [],
                result := .error .NotEnoughFunds }
    | some rem =>
      match checkedSub rem total_split_amount with
      | none => { state := s, trace := [], events := [], tickets := [],
                  result := .error .NotEnoughFunds }
      | some change_value =>
        let r := coinSplitLoop amount_per_split split_count change_value persist_ok
          output_count s.key_manager_index []
        let incTrace := List.replicate r.2.2.1 StoreEvent.incrementKeyIndex
        if r.2.2.2 then
          if build_ok then
            let tr := incTrace ++
              [.encumberOutputs tx_id inputs r.2.1, .confirmEncumbered tx_id]
            { state := { s with key_manager_index := r.1, store := applyTrace s.store tr },
              trace := tr, events := [], tickets := [],
              result := .ok (tx_id, ⟨inputs, r.2.1⟩, fee, utxo_total) }
          else
            let s1 := { s with key_manager_index := r.1, store := applyTrace s.store incTrace }
            { state := s1, trace := incTrace, events := [], tickets := [],
              result := .error .BuildError }
        else
          let s1 := { s with key_manager_index := r.1, store := applyTrace s.store incTrace }
          { state := s1, trace := incTrace, events := [], tickets := [],
            result := .error .StorageError }

/-- The spending keys a store event exposes that were freshly issued by the
containing operation: the key recorded by `accept_incoming_pending_transaction`
and the keys of the to-be-received (change / split) outputs of
`encumber_outputs`.  The to-be-spent outputs carry pre-existing keys. -/
def issuedKeysInEvent : StoreEvent → List Nat
  | .acceptIncoming _ _ key _ => [key]
  | .encumberOutputs _ _ outputs_to_receive => outputs_to_receive.map (fun uo => uo.spending_key)
  | _ => []

/-- `persistedBeforeUse p tr`: walking the trace with persisted index `p`,
every freshly issued key a store event exposes is strictly below the index
persisted so far — i.e. the `increment_key_index` persisting past the key
happened earlier in the trace. -/
def persistedBeforeUse (p : Nat) : List StoreEvent → Bool
  | [] => true
  | e :: rest =>
    (issuedKeysInEvent e).all (fun k => decide (k < p)) &&
    persistedBeforeUse
      (p + (match e with | .incrementKeyIndex => 1 | _ => 0)) rest

/-- One item drained by the actor loop: an API request, an inbound base-node
response or a timeout ticket, together with the oracle outcomes of its
handling. -/
inductive Op
  | addOutput (uo : UnblindedOutput)
  | getRecipientKey (tx_id amount : Nat) (persist_ok : Bool)
  | getCoinbaseKey (tx_id amount maturity_height : Nat) (persist_ok : Bool)
  | prepareToSend (amount fee_per_gram : Nat) (lock_height : Option Nat)
      (build_ok persist_ok : Bool) (tx_id : Nat)
  | createCoinSplit (amount_per_split split_count fee_per_gram : Nat)
      (lock_height : Option Nat) (build_ok persist_ok : Bool) (tx_id : Nat)
  | confirmPendingTransaction (tx_id : Nat)
  | cancelTransaction (tx_id : Nat)
  | setBaseNodePublicKey (fresh_key : Nat)
  | syncWithBaseNode (fresh_key : Nat)
  | baseNodeResponse (resp : BaseNodeResponse)
  | utxoQueryTimeout (query_key fresh_key : Nat)
deriving DecidableEq

/-- The state transition of one actor-loop tick. -/
def step (ctx : Ctx) (s : SvcState) : Op → SvcState
  | .addOutput uo => (add_output s uo).state
  | .getRecipientKey tx_id amount persist_ok =>
      (get_recipient_spending_key s tx_id amount persist_ok).state
  | .getCoinbaseKey tx_id amount maturity_height persist_ok =>
      (get_coinbase_spending_key s tx_id amount maturity_height persist_ok).state
  | .prepareToSend amount fee_per_gram lock_height build_ok persist_ok tx_id =>
      (prepare_transaction_to_send ctx s amount fee_per_gram lock_height build_ok
        persist_ok tx_id).state
  | .createCoinSplit amount_per_split split_count fee_per_gram lock_height build_ok
        persist_ok tx_id =>
      (create_coin_split ctx s amount_per_split split_count fee_per_gram lock_height
        build_ok persist_ok tx_id).state
  | .confirmPendingTransaction tx_id => (confirm_encumberance s tx_id).state
  | .cancelTransaction tx_id => (cancel_transaction s tx_id).state
  | .setBaseNodePublicKey fresh_key => (set_base_node_public_key ctx s fresh_key).state
  | .syncWithBaseNode fresh_key => (query_unspent_outputs_status ctx s fresh_key).state
  | .baseNodeResponse resp => (handle_base_node_response ctx s resp).state
  | .utxoQueryTimeout query_key fresh_key =>
      (handle_utxo_query_timeout ctx s query_key fresh_key).state

/-! Concrete instances used by counterexamples and witnesses. -/

/-- A context whose fee calculator is the constant `n` and whose output hash
is the spending key (injective on every store below). -/
def constFeeCtx (n : Nat) : Ctx :=
  ⟨fun _ _ _ _ => n, fun uo => uo.spending_key⟩

/-- A service state with an empty store. -/
def sEmpty : SvcState := ⟨⟨0, [], [], []⟩, 0, false, []⟩

/-- A service state holding a single unspent output of value 1000. -/
def sOne1000 : SvcState := ⟨⟨0, [⟨1000, 7, 0⟩], [], []⟩, 0, false, []⟩

/-- A service state holding a single unspent output of value 10000. -/
def sOne10000 : SvcState := ⟨⟨0, [⟨10000, 42, 0⟩], [], []⟩, 0, false, []⟩

/-- Two unspent outputs with hashes 1 and 2 and a pending query for both
under request key 9. -/
def sTwoQueried : SvcState := ⟨⟨0, [⟨100, 1, 0⟩, ⟨200, 2, 0⟩], [], []⟩, 0, true, [(9, [1, 2])]⟩

/-- A response for request key 9 whose payload holds a malformed output
followed by a valid output of hash 1. -/
def respMalformed : BaseNodeResponse := ⟨9, some [.malformed, .valid 1]⟩

/-- A response for request key 9 returning only the output of hash 1. -/
def respOnlyHash1 : BaseNodeResponse := ⟨9, some [.valid 1]⟩

/-! Theorems. -/

theorem selFinish_ok (amount : Nat) (acc : SelAcc)
    (h : acc.total = amount + acc.fee_without_change ∨
      amount + acc.fee_with_change ≤ acc.total) :
    selFinish amount acc = .ok (acc.utxos, acc.require_change_output) := by
  rw [selFinish, if_neg]
  omega

theorem selectLoop_bridge (ctx : Ctx) (amount g c : Nat) :
    ∀ (l : List UnblindedOutput) (acc : SelAcc),
      acc.require_change_output = false →
      acc.total ≠ amount + acc.fee_without_change →
      acc.total < amount + acc.fee_with_change →
      selFinish amount (selectLoop ctx amount g c l acc) =
        toSelResult (selectSpecLoop ctx amount g c l acc.utxos acc.total) := by
  intro l
  induction l with
  | nil =>
    intro acc hrc h1 h2
    simp only [selectLoop, selectSpecLoop, toSelResult, selFinish]
    rw [if_pos ⟨h1, h2⟩]
  | cons o rest ih =>
    intro acc hrc h1 h2
    simp only [selectLoop, selectSpecLoop]
    by_cases hc1 : acc.total + o.value = amount + ctx.fee g 1 (acc.utxos ++ [o]).length c
    · rw [if_pos hc1, if_pos hc1]
      simp [selFinish, toSelResult, hc1, hrc]
    · rw [if_neg hc1, if_neg hc1]
      by_cases hc2 : amount + ctx.fee g 1 (acc.utxos ++ [o]).length (c + 1) ≤ acc.total + o.value
      · rw [if_pos hc2, if_pos hc2]
        exact selFinish_ok amount _ (Or.inr hc2)
      · rw [if_neg hc2, if_neg hc2]
        exact ih _ hrc hc1
          (show acc.total + o.value <
            amount + ctx.fee g 1 (acc.utxos ++ [o]).length (c + 1) by omega)

theorem selectLoop_bridge_cons (ctx : Ctx) (amount g c : Nat)
    (o : UnblindedOutput) (rest : List UnblindedOutput) (acc : SelAcc)
    (hrc : acc.require_change_output = false) :
    selFinish amount (selectLoop ctx amount g c (o :: rest) acc) =
      toSelResult (selectSpecLoop ctx amount g c (o :: rest) acc.utxos acc.total) := by
  simp only [selectLoop, selectSpecLoop]
  by_cases hc1 : acc.total + o.value = amount + ctx.fee g 1 (acc.utxos ++ [o]).length c
  · rw [if_pos hc1, if_pos hc1]
    simp [selFinish, toSelResult, hc1, hrc]
  · rw [if_neg hc1, if_neg hc1]
    by_cases hc2 : amount + ctx.fee g 1 (acc.utxos ++ [o]).length (c + 1) ≤ acc.total + o.value
    · rw [if_pos hc2, if_pos hc2]
      exact selFinish_ok amount _ (Or.inr hc2)
    · rw [if_neg hc2, if_neg hc2]
      exact selectLoop_bridge ctx amount g c rest _ hrc hc1
        (show acc.total + o.value <
          amount + ctx.fee g 1 (acc.utxos ++ [o]).length (c + 1) by omega)

theorem sortByStrategy_ne_nil (strat : UTXOSelectionStrategy)
    (U : List UnblindedOutput) (h : U ≠ []) : sortByStrategy strat U ≠ [] := by
  cases strat with
  | Smallest => exact h
  | MaturityThenSmallest =>
    intro hc
    apply h
    have hc' : List.insertionSort maturityValueLe U = [] := hc
    have hl := List.length_insertionSort maturityValueLe U
    rw [hc'] at hl
    exact List.length_eq_zero.mp hl.symm

theorem select_utxos_eq_amended (ctx : Ctx) (amount g c : Nat)
    (strat : UTXOSelectionStrategy) (U : List UnblindedOutput) :
    select_utxos ctx amount g c strat U = select_utxos_spec_amended ctx amount g c strat U := by
  have hinit1 : amount ≠ 0 → (0 : Nat) ≠ amount + 0 := by omega
  have hinit2 : amount ≠ 0 → (0 : Nat) < amount + 0 := by omega
  by_cases hU : U = []
  · subst hU
    have hsort : sortByStrategy strat [] = [] := by cases strat <;> rfl
    by_cases ha : amount = 0
    · subst ha
      simp [select_utxos, select_utxos_spec_amended, hsort, selectLoop, selFinish]
    · have hb := selectLoop_bridge ctx amount g c (sortByStrategy strat [])
        ⟨[], 0, 0, 0, false⟩ rfl (hinit1 ha) (hinit2 ha)
      rw [select_utxos, hb, hsort]
      simp [selectSpecLoop, toSelResult, select_utxos_spec_amended, ha]
  · rw [select_utxos_spec_amended, if_neg hU, select_utxos_spec]
    by_cases ha : amount = 0
    · subst ha
      rcases hs : sortByStrategy strat U with _ | ⟨o, rest⟩
      · exact absurd hs (sortByStrategy_ne_nil strat U hU)
      · rw [select_utxos, hs]
        exact selectLoop_bridge_cons ctx 0 g c o rest _ rfl
    · rw [select_utxos]
      exact selectLoop_bridge ctx amount g c _ _ rfl (hinit1 ha) (hinit2 ha)

/-- C1, counterexample: on an empty unspent list with `amount = 0` the code
returns `([], false)`, while the claim's algorithm (candidates exhausted with
neither condition ever met) mandates `NotEnoughFunds`. -/
theorem claim_C1_counterexample :
    select_utxos (constFeeCtx 25) 0 25 1 .MaturityThenSmallest [] = .ok ([], false) ∧
    select_utxos_spec (constFeeCtx 25) 0 25 1 .MaturityThenSmallest [] =
      .error .NotEnoughFunds := by
  constructor <;> rfl

/-- C1 (amended): `select_utxos` behaves exactly as the claim's loop — the
candidates ordered per strategy (sorted by maturity then value, a permutation
of the input), outputs accumulated one at a time, returning `(inputs, false)`
on the exact-amount condition and `(inputs, true)` on the with-change
condition — except that when the candidates are exhausted with no output
appended and `amount = 0` it returns `([], false)` instead of failing with
`NotEnoughFunds`; on a selection failure the calling operations perform no
store mutation and return the error unchanged. -/
theorem claim_C1_select_utxos :
    (∀ (ctx : Ctx) (amount g c : Nat) (strat : UTXOSelectionStrategy)
        (U : List UnblindedOutput),
      select_utxos ctx amount g c strat U = select_utxos_spec_amended ctx amount g c strat U) ∧
    (∀ U : List UnblindedOutput,
      List.Sorted maturityValueLe (sortByStrategy .MaturityThenSmallest U) ∧
      (sortByStrategy .MaturityThenSmallest U).Perm U) ∧
    (∀ (ctx : Ctx) (s : SvcState) (amount g : Nat) (lh : Option Nat) (bo po : Bool)
        (t : Nat) (e : OutputManagerError),
      select_utxos ctx amount g 1 .MaturityThenSmallest s.store.unspent = .error e →
      prepare_transaction_to_send ctx s amount g lh bo po t = ⟨s, [], [], [], .error e⟩) ∧
    (∀ (ctx : Ctx) (s : SvcState) (aps sc g : Nat) (lh : Option Nat) (bo po : Bool)
        (t : Nat) (e : OutputManagerError),
      select_utxos ctx (aps * sc) g sc .MaturityThenSmallest s.store.unspent = .error e →
      create_coin_split ctx s aps sc g lh bo po t = ⟨s, [], [], [], .error e⟩) := by
  refine ⟨select_utxos_eq_amended, fun U => ⟨?_, ?_⟩, ?_, ?_⟩
  · exact List.sorted_insertionSort maturityValueLe U
  · exact List.perm_insertionSort maturityValueLe U
  · intro ctx s amount g lh bo po t e h
    rw [prepare_transaction_to_send, h]
  · intro ctx s aps sc g lh bo po t e h
    rw [create_coin_split, h]

/-- C1, witness: the amended theorem applied at a concrete input — an empty
store cannot cover `amount = 5`, `prepare_transaction_to_send` fails with
`NotEnoughFunds` and leaves the state untouched. -/
theorem claim_C1_witness :
    select_utxos (constFeeCtx 25) 5 1 1 .MaturityThenSmallest sEmpty.store.unspent =
      .error .NotEnoughFunds ∧
    prepare_transaction_to_send (constFeeCtx 25) sEmpty 5 1 none true true 1 =
      ⟨sEmpty, [], [], [], .error .NotEnoughFunds⟩ :=
  ⟨by decide, claim_C1_select_utxos.2.2.1 (constFeeCtx 25) sEmpty 5 1 none true true 1
    .NotEnoughFunds (by decide)⟩

theorem select_utxos_error_is_not_enough (ctx : Ctx) (amount g c : Nat)
    (strat : UTXOSelectionStrategy) (U : List UnblindedOutput) (e : OutputManagerError)
    (h : select_utxos ctx amount g c strat U = .error e) : e = .NotEnoughFunds := by
  simp only [select_utxos, selFinish] at h
  split at h
  · injection h with h'
    exact h'.symm
  · simp at h

/-- C4, counterexample: one unspent output of value 1000, constant fee 10,
amount 400 — a change output is required, so a change key is issued and
`increment_key_index` persisted before the builder runs; when the build then
fails, `BuildError` surfaces with the persisted `primary_key_index` already
advanced from 0 to 1, contradicting the claim that it is unchanged. -/
theorem claim_C4_counterexample :
    (prepare_transaction_to_send (constFeeCtx 10) sOne1000 400 10 none false true 5).result =
      .error .BuildError ∧
    sOne1000.store.primary_key_index = 0 ∧
    (prepare_transaction_to_send (constFeeCtx 10) sOne1000 400 10 none false true
      5).state.store.primary_key_index = 1 := by
  refine ⟨?_, rfl, ?_⟩ <;> rfl

/-- C4 (amended): when `prepare_transaction_to_send` fails with `BuildError`,
the `Unspent` partition, the `Invalid` partition and the pending-transaction
records are unchanged from their pre-call values, but the persisted
`primary_key_index` may already have been incremented by one, because the
change-key issuance and its persistence precede the build. -/
theorem claim_C4_build_error_state :
    ∀ (ctx : Ctx) (s : SvcState) (amount g : Nat) (lh : Option Nat) (bo po : Bool) (t : Nat),
      (prepare_transaction_to_send ctx s amount g lh bo po t).result = .error .BuildError →
      (prepare_transaction_to_send ctx s amount g lh bo po t).state.store.unspent =
          s.store.unspent ∧
      (prepare_transaction_to_send ctx s amount g lh bo po t).state.store.pending =
          s.store.pending ∧
      (prepare_transaction_to_send ctx s amount g lh bo po t).state.store.invalid =
          s.store.invalid ∧
      ((prepare_transaction_to_send ctx s amount g lh bo po t).state.store.primary_key_index =
          s.store.primary_key_index ∨
       (prepare_transaction_to_send ctx s amount g lh bo po t).state.store.primary_key_index =
          s.store.primary_key_index + 1) := by
  intro ctx s amount g lh bo po t h
  cases hsel : select_utxos ctx amount g 1 .MaturityThenSmallest s.store.unspent with
  | error e => simp [prepare_transaction_to_send, hsel]
  | ok p =>
    obtain ⟨outputs, rc⟩ := p
    simp only [prepare_transaction_to_send, hsel] at h ⊢
    by_cases hch : amount + ctx.fee g 1 outputs.length 1 < sumValues outputs
    · rw [if_pos hch] at h ⊢
      cases po with
      | false => simp at h
      | true =>
        cases bo with
        | false => simp [applyTrace, applyStoreEvent]
        | true => simp at h
    · rw [if_neg hch] at h ⊢
      cases bo with
      | false => simp
      | true => simp at h

/-- C4, witness: the amended theorem at the counterexample's input — on
`BuildError` the unspent set and pending records are unchanged while the
persisted index moved from 0 to 1. -/
theorem claim_C4_witness :
    (prepare_transaction_to_send (constFeeCtx 10) sOne1000 400 10 none false true 5).result =
      .error .BuildError ∧
    ((prepare_transaction_to_send (constFeeCtx 10) sOne1000 400 10 none false true
        5).state.store.unspent = sOne1000.store.unspent ∧
     (prepare_transaction_to_send (constFeeCtx 10) sOne1000 400 10 none false true
        5).state.store.pending = sOne1000.store.pending ∧
     (prepare_transaction_to_send (constFeeCtx 10) sOne1000 400 10 none false true
        5).state.store.invalid = sOne1000.store.invalid ∧
     ((prepare_transaction_to_send (constFeeCtx 10) sOne1000 400 10 none false true
        5).state.store.primary_key_index = sOne1000.store.primary_key_index ∨
      (prepare_transaction_to_send (constFeeCtx 10) sOne1000 400 10 none false true
        5).state.store.primary_key_index = sOne1000.store.primary_key_index + 1)) :=
  ⟨by decide, claim_C4_build_error_state (constFeeCtx 10) sOne1000 400 10 none false true 5
    (by decide)⟩

/-- C5, counterexample: a failed persistence aborts
`get_recipient_spending_key` with `StorageError`, but the in-memory
key-manager index is NOT rolled back to its pre-call value 0 — it stays 1. -/
theorem claim_C5_counterexample :
    (get_recipient_spending_key sEmpty 1 100 false).result = .error .StorageError ∧
    sEmpty.key_manager_index = 0 ∧
    (get_recipient_spending_key sEmpty 1 100 false).state.key_manager_index = 1 ∧
    (get_recipient_spending_key sEmpty 1 100 false).state.store = sEmpty.store :=
  ⟨rfl, rfl, rfl, rfl⟩

/-- C5 (amended): key derivation itself never fails (the key manager's
derivation is infallible, per the spec), and when persisting the new index
fails the containing operation aborts with `StorageError` leaving the store
untouched — but the in-memory key-manager index is NOT rolled back: it
remains one past its pre-call value, in every issuance site. -/
theorem claim_C5_storage_error_no_rollback :
    (∀ (s : SvcState) (t a : Nat),
      get_recipient_spending_key s t a false =
        ⟨{ s with key_manager_index := s.key_manager_index + 1 }, [], [], [],
          .error .StorageError⟩) ∧
    (∀ (s : SvcState) (t a m : Nat),
      get_coinbase_spending_key s t a m false =
        ⟨{ s with key_manager_index := s.key_manager_index + 1 }, [], [], [],
          .error .StorageError⟩) ∧
    (∀ (ctx : Ctx) (s : SvcState) (a g : Nat) (lh : Option Nat) (bo : Bool) (t : Nat),
      (prepare_transaction_to_send ctx s a g lh bo false t).result = .error .StorageError →
      (prepare_transaction_to_send ctx s a g lh bo false t).state =
        { s with key_manager_index := s.key_manager_index + 1 }) ∧
    (∀ (ctx : Ctx) (s : SvcState) (aps sc g : Nat) (lh : Option Nat) (bo : Bool) (t : Nat),
      (create_coin_split ctx s aps sc g lh bo false t).result = .error .StorageError →
      (create_coin_split ctx s aps sc g lh bo false t).state =
        { s with key_manager_index := s.key_manager_index + 1 }) := by
  refine ⟨fun s t a => rfl, fun s t a m => rfl, ?_, ?_⟩
  · intro ctx s a g lh bo t h
    cases hsel : select_utxos ctx a g 1 .MaturityThenSmallest s.store.unspent with
    | error e =>
      have he := select_utxos_error_is_not_enough ctx a g 1 .MaturityThenSmallest
        s.store.unspent e hsel
      subst he
      simp [prepare_transaction_to_send, hsel] at h
    | ok p =>
      obtain ⟨outputs, rc⟩ := p
      simp only [prepare_transaction_to_send, hsel] at h ⊢
      by_cases hch : a + ctx.fee g 1 outputs.length 1 < sumValues outputs
      · rw [if_pos hch] at h ⊢
        rfl
      · rw [if_neg hch] at h ⊢
        cases bo with
        | false => simp at h
        | true => simp at h
  · intro ctx s aps sc g lh bo t h
    cases hsel : select_utxos ctx (aps * sc) g sc .MaturityThenSmallest s.store.unspent with
    | error e =>
      have he := select_utxos_error_is_not_enough ctx (aps * sc) g sc .MaturityThenSmallest
        s.store.unspent e hsel
      subst he
      simp [create_coin_split, hsel] at h
    | ok p =>
      obtain ⟨inputs, rc⟩ := p
      simp only [create_coin_split, hsel] at h ⊢
      cases hrem : checkedSub (sumValues inputs)
          (ctx.fee g 1 inputs.length (if rc then sc + 1 else sc)) with
      | none =>
        simp only [hrem] at h
        simp at h
      | some rem =>
        simp only [hrem] at h ⊢
        cases hcv : checkedSub rem (aps * sc) with
        | none =>
          simp only [hcv] at h
          simp at h
        | some cv =>
          simp only [hcv] at h ⊢
          cases houtc : (if rc then sc + 1 else sc) with
          | zero =>
            rw [houtc] at h
            cases bo <;> simp [coinSplitLoop] at h
          | succ n =>
            rw [houtc] at h
            simp only [coinSplitLoop] at h ⊢
            simp [applyTrace]

/-- C5, witness: the amended theorem at a concrete input — persisting the
change-key index of `prepare_transaction_to_send` fails, the call aborts with
`StorageError`, the store is untouched and the in-memory index stays
advanced. -/
theorem claim_C5_witness :
    (prepare_transaction_to_send (constFeeCtx 10) sOne1000 400 10 none true false 5).result =
      .error .StorageError ∧
    (prepare_transaction_to_send (constFeeCtx 10) sOne1000 400 10 none true false 5).state =
      { sOne1000 with key_manager_index := sOne1000.key_manager_index + 1 } :=
  ⟨by decide, claim_C5_storage_error_no_rollback.2.2.1 (constFeeCtx 10) sOne1000 400 10 none
    true 5 (by decide)⟩

theorem removeResponseHashes_malformed :
    ∀ (outs : List RespOutput) (m : List (Nat × UnblindedOutput)),
      RespOutput.malformed ∈ outs →
      removeResponseHashes m outs = .error .ConversionError := by
  intro outs
  induction outs with
  | nil =>
    intro m h
    exact absurd h (List.not_mem_nil _)
  | cons o rest ih =>
    intro m h
    cases o with
    | malformed => rfl
    | valid hsh =>
      cases h with
      | tail _ h2 => exact ih (eraseHash hsh m) h2

/-- C6, counterexample: request key 9 is pending over hashes `[1, 2]` of two
unspent outputs; the payload is a malformed output followed by a valid output
of hash 1.  The handler surfaces `ConversionError` but, contrary to the
claim, does NOT process the remaining outputs of the message: the store is
completely untouched (the queried-but-unreturned output of hash 2 is not
invalidated) and no event is published. -/
theorem claim_C6_counterexample :
    (handle_base_node_response (constFeeCtx 10) sTwoQueried respMalformed).result =
      .error .ConversionError ∧
    (handle_base_node_response (constFeeCtx 10) sTwoQueried respMalformed).state.store =
      sTwoQueried.store ∧
    (handle_base_node_response (constFeeCtx 10) sTwoQueried respMalformed).state.store.invalid
      = [] ∧
    (handle_base_node_response (constFeeCtx 10) sTwoQueried respMalformed).events = [] := by
  refine ⟨rfl, rfl, rfl, rfl⟩

/-- C6 (amended): a malformed output in a pending-keyed payload aborts the
processing of the entire message with `ConversionError`: the store is left
untouched (no invalidation at all, not even for outputs preceding the
offending one), no event is published, and only the pending-query entry has
been consumed. -/
theorem claim_C6_conversion_error_aborts :
    ∀ (ctx : Ctx) (s : SvcState) (resp : BaseNodeResponse) (outs : List RespOutput)
      (q : List Nat),
      resp.response = some outs →
      lookupQuery resp.request_key s.pending_utxo_query_keys = some q →
      RespOutput.malformed ∈ outs →
      handle_base_node_response ctx s resp =
        ⟨{ s with
            pending_utxo_query_keys := removeQuery resp.request_key s.pending_utxo_query_keys },
          [], [], [], .error .ConversionError⟩ := by
  intro ctx s resp outs q hresp hlook hmal
  simp only [handle_base_node_response, hresp, hlook]
  rw [removeResponseHashes_malformed outs _ hmal]

/-- C6, witness: the amended theorem at the counterexample's input. -/
theorem claim_C6_witness :
    handle_base_node_response (constFeeCtx 10) sTwoQueried respMalformed =
      ⟨{ sTwoQueried with
          pending_utxo_query_keys :=
            removeQuery respMalformed.request_key sTwoQueried.pending_utxo_query_keys },
        [], [], [], .error .ConversionError⟩ :=
  claim_C6_conversion_error_aborts (constFeeCtx 10) sTwoQueried respMalformed
    [.malformed, .valid 1] [1, 2] rfl rfl (by decide)

theorem lookupQuery_removeQuery_self (k : Nat) (m : List (Nat × List Nat)) :
    lookupQuery k (removeQuery k m) = none := by
  induction m with
  | nil => rfl
  | cons p rest ih =>
    by_cases hp : p.1 = k
    · simpa [removeQuery, hp] using ih
    · simpa [removeQuery, lookupQuery, hp] using ih

theorem lookupQuery_removeQuery_other (k k' : Nat) (m : List (Nat × List Nat))
    (h : lookupQuery k m = none) : lookupQuery k (removeQuery k' m) = none := by
  induction m with
  | nil => rfl
  | cons p rest ih =>
    by_cases hp : p.1 = k
    · simp [lookupQuery, hp] at h
    · simp only [lookupQuery, if_neg hp] at h
      by_cases hp' : p.1 = k'
      · simpa [removeQuery, hp'] using ih h
      · simpa [removeQuery, lookupQuery, hp, hp'] using ih h

theorem lookupQuery_append (k : Nat) (m1 m2 : List (Nat × List Nat)) :
    lookupQuery k (m1 ++ m2) =
      match lookupQuery k m1 with
      | some v => some v
      | none => lookupQuery k m2 := by
  induction m1 with
  | nil => rfl
  | cons p rest ih =>
    by_cases hp : p.1 = k
    · simp [lookupQuery, hp]
    · simpa [lookupQuery, hp] using ih

theorem lookupQuery_insertQuery_self (k : Nat) (v : List Nat) (m : List (Nat × List Nat)) :
    lookupQuery k (insertQuery k v m) = some v := by
  rw [insertQuery, lookupQuery_append, lookupQuery_removeQuery_self]
  simp [lookupQuery]

theorem lookupQuery_insertQuery_ne (k k' : Nat) (v : List Nat) (m : List (Nat × List Nat))
    (h : k' ≠ k) : lookupQuery k (insertQuery k' v m) = lookupQuery k (removeQuery k' m) := by
  rw [insertQuery, lookupQuery_append]
  cases hl : lookupQuery k (removeQuery k' m) with
  | some v' => rfl
  | none => simp [lookupQuery, h]

theorem hbnr_pending_removed (ctx : Ctx) (s : SvcState) (resp : BaseNodeResponse)
    (outs : List RespOutput) (q : List Nat) (hresp : resp.response = some outs)
    (hlook : lookupQuery resp.request_key s.pending_utxo_query_keys = some q) :
    (handle_base_node_response ctx s resp).state.pending_utxo_query_keys =
      removeQuery resp.request_key s.pending_utxo_query_keys := by
  simp only [handle_base_node_response, hresp, hlook]
  cases hrr : removeResponseHashes (buildOutputHashes ctx s.store.unspent q) outs with
  | error e => simp [hrr]
  | ok remaining => simp [hrr]

theorem timeout_noop_of_not_pending (ctx : Ctx) (s : SvcState) (qk fk : Nat)
    (h : lookupQuery qk s.pending_utxo_query_keys = none) :
    handle_utxo_query_timeout ctx s qk fk = ⟨s, [], [], [], .ok ()⟩ := by
  simp [handle_utxo_query_timeout, h]

theorem lookupQuery_timeout_state (ctx : Ctx) (s : SvcState) (qk fk : Nat) (hne : fk ≠ qk) :
    lookupQuery qk (handle_utxo_query_timeout ctx s qk fk).state.pending_utxo_query_keys =
      none := by
  cases hlook : lookupQuery qk s.pending_utxo_query_keys with
  | none => simp [handle_utxo_query_timeout, hlook]
  | some q =>
    simp only [handle_utxo_query_timeout, hlook, query_unspent_outputs_status]
    cases hpk : s.base_node_key_set with
    | false =>
      simp only [hpk, Bool.false_eq_true, if_false]
      exact lookupQuery_removeQuery_self qk _
    | true =>
      simp only [hpk, if_true]
      rw [lookupQuery_insertQuery_ne _ _ _ _ hne]
      exact lookupQuery_removeQuery_other _ _ _ (lookupQuery_removeQuery_self qk _)

/-- C7: `handle_utxo_query_timeout` (1) is a no-op when the key is not
pending; (2) when the key is pending (and a base node key is set, which every
sent query required) it removes the entry, publishes
`BaseNodeSyncRequestTimedOut(request_key)` and installs a fresh random
request key, holding the current unspent hashes, together with its own
timeout ticket — each such timeout retries, so the retry is unbounded; and
(3) for a single request key a response and its timeout can never both take
effect: whichever of the two consumes the shared `pending_utxo_query_keys`
entry first leaves the other a no-op. -/
theorem claim_C7_timeout_semantics :
    (∀ (ctx : Ctx) (s : SvcState) (qk fk : Nat),
      lookupQuery qk s.pending_utxo_query_keys = none →
      handle_utxo_query_timeout ctx s qk fk = ⟨s, [], [], [], .ok ()⟩) ∧
    (∀ (ctx : Ctx) (s : SvcState) (qk fk : Nat) (q : List Nat),
      lookupQuery qk s.pending_utxo_query_keys = some q →
      s.base_node_key_set = true →
      handle_utxo_query_timeout ctx s qk fk =
        ⟨{ s with
            pending_utxo_query_keys := insertQuery fk (s.store.unspent.map ctx.hashOf)
              (removeQuery qk s.pending_utxo_query_keys) },
          [], [.baseNodeSyncRequestTimedOut qk], [fk], .ok ()⟩ ∧
      lookupQuery fk
          (handle_utxo_query_timeout ctx s qk fk).state.pending_utxo_query_keys =
        some (s.store.unspent.map ctx.hashOf)) ∧
    (∀ (ctx : Ctx) (s : SvcState) (resp : BaseNodeResponse) (outs : List RespOutput)
        (q : List Nat) (fk : Nat),
      resp.response = some outs →
      lookupQuery resp.request_key s.pending_utxo_query_keys = some q →
      handle_utxo_query_timeout ctx (handle_base_node_response ctx s resp).state
          resp.request_key fk =
        ⟨(handle_base_node_response ctx s resp).state, [], [], [], .ok ()⟩) ∧
    (∀ (ctx : Ctx) (s : SvcState) (qk fk : Nat) (resp : BaseNodeResponse),
      resp.request_key = qk → fk ≠ qk →
      handle_base_node_response ctx (handle_utxo_query_timeout ctx s qk fk).state resp =
        ⟨(handle_utxo_query_timeout ctx s qk fk).state, [], [], [], .ok ()⟩) := by
  refine ⟨timeout_noop_of_not_pending, ?_, ?_, ?_⟩
  · intro ctx s qk fk q hlook hpk
    have heq : handle_utxo_query_timeout ctx s qk fk =
        ⟨{ s with
            pending_utxo_query_keys := insertQuery fk (s.store.unspent.map ctx.hashOf)
              (removeQuery qk s.pending_utxo_query_keys) },
          [], [.baseNodeSyncRequestTimedOut qk], [fk], .ok ()⟩ := by
      simp [handle_utxo_query_timeout, hlook, query_unspent_outputs_status, hpk]
    refine ⟨heq, ?_⟩
    rw [heq]
    exact lookupQuery_insertQuery_self fk _ _
  · intro ctx s resp outs q fk hresp hlook
    refine timeout_noop_of_not_pending ctx _ _ fk ?_
    rw [hbnr_pending_removed ctx s resp outs q hresp hlook]
    exact lookupQuery_removeQuery_self _ _
  · intro ctx s qk fk resp hkey hne
    cases hresp : resp.response with
    | none => simp [handle_base_node_response, hresp]
    | some outs =>
      have hnone : lookupQuery resp.request_key
          (handle_utxo_query_timeout ctx s qk fk).state.pending_utxo_query_keys = none := by
        rw [hkey]
        exact lookupQuery_timeout_state ctx s qk fk hne
      simp [handle_base_node_response, hresp, hnone]

/-- C7, witness: the claim's theorem at a concrete state — request key 9 is
pending over hashes `[1, 2]`, its timeout consumes the entry, emits the
timed-out event and installs fresh key 13 with its own ticket. -/
theorem claim_C7_witness :
    lookupQuery 9 sTwoQueried.pending_utxo_query_keys = some [1, 2] ∧
    sTwoQueried.base_node_key_set = true ∧
    handle_utxo_query_timeout (constFeeCtx 10) sTwoQueried 9 13 =
      ⟨{ sTwoQueried with
          pending_utxo_query_keys := insertQuery 13
            (sTwoQueried.store.unspent.map (constFeeCtx 10).hashOf)
            (removeQuery 9 sTwoQueried.pending_utxo_query_keys) },
        [], [.baseNodeSyncRequestTimedOut 9], [13], .ok ()⟩ :=
  ⟨by decide, by decide,
    (claim_C7_timeout_semantics.2.1 (constFeeCtx 10) sTwoQueried 9 13 [1, 2] (by decide)
      (by decide)).1⟩

/-- C10: as soon as a response whose `request_key` is pending carries a
`TransactionOutputs` payload, the handler removes the
`pending_utxo_query_keys` entry before converting any output, so after the
call — whether it succeeded or aborted with `ConversionError` — the entry is
gone and a later timeout ticket for that request key is a pure no-op that
issues no retry query. -/
theorem claim_C10_entry_consumed_before_conversion :
    ∀ (ctx : Ctx) (s : SvcState) (resp : BaseNodeResponse) (outs : List RespOutput)
      (q : List Nat) (fk : Nat),
      resp.response = some outs →
      lookupQuery resp.request_key s.pending_utxo_query_keys = some q →
      (handle_base_node_response ctx s resp).state.pending_utxo_query_keys =
          removeQuery resp.request_key s.pending_utxo_query_keys ∧
      lookupQuery resp.request_key
          (handle_base_node_response ctx s resp).state.pending_utxo_query_keys = none ∧
      handle_utxo_query_timeout ctx (handle_base_node_response ctx s resp).state
          resp.request_key fk =
        ⟨(handle_base_node_response ctx s resp).state, [], [], [], .ok ()⟩ := by
  intro ctx s resp outs q fk hresp hlook
  have h1 := hbnr_pending_removed ctx s resp outs q hresp hlook
  have h2 : lookupQuery resp.request_key
      (handle_base_node_response ctx s resp).state.pending_utxo_query_keys = none := by
    rw [h1]
    exact lookupQuery_removeQuery_self _ _
  exact ⟨h1, h2, timeout_noop_of_not_pending ctx _ _ fk h2⟩

/-- C10, witness: at the concrete malformed-payload response of request key 9
the handler aborts with `ConversionError`, yet the pending entry is consumed
and the later timeout of key 9 is a no-op. -/
theorem claim_C10_witness :
    (handle_base_node_response (constFeeCtx 10) sTwoQueried respMalformed).state.pending_utxo_query_keys = [] ∧
    handle_utxo_query_timeout (constFeeCtx 10)
        (handle_base_node_response (constFeeCtx 10) sTwoQueried respMalformed).state 9 13 =
      ⟨(handle_base_node_response (constFeeCtx 10) sTwoQueried respMalformed).state,
        [], [], [], .ok ()⟩ :=
  ⟨by decide,
    (claim_C10_entry_consumed_before_conversion (constFeeCtx 10) sTwoQueried respMalformed
      [.malformed, .valid 1] [1, 2] 13 rfl (by decide)).2.2⟩

theorem sumValues_foldl : ∀ (l : List UnblindedOutput) (a : Nat),
    l.foldl (fun acc x => acc + x.value) a = a + sumValues l := by
  intro l
  induction l with
  | nil => intro a; simp [sumValues]
  | cons x l ih =>
    intro a
    have h1 : (x :: l).foldl (fun acc x => acc + x.value) a =
        l.foldl (fun acc x => acc + x.value) (a + x.value) := rfl
    have h2 : sumValues (x :: l) = l.foldl (fun acc x => acc + x.value) (0 + x.value) := rfl
    rw [h1, h2, ih, ih]
    omega

theorem sumValues_cons (x : UnblindedOutput) (l : List UnblindedOutput) :
    sumValues (x :: l) = x.value + sumValues l := by
  have h2 : sumValues (x :: l) = l.foldl (fun acc x => acc + x.value) (0 + x.value) := rfl
  rw [h2, sumValues_foldl]
  omega

theorem selectSpecLoop_some_inv (ctx : Ctx) (amount g c : Nat) :
    ∀ (l inputs : List UnblindedOutput) (total : Nat) (l' : List UnblindedOutput) (b : Bool),
      selectSpecLoop ctx amount g c l inputs total = some (l', b) →
      ∃ pre : List UnblindedOutput, pre ≠ [] ∧ l' = inputs ++ pre ∧
        (b = false → total + sumValues pre = amount + ctx.fee g 1 l'.length c) ∧
        (b = true → amount + ctx.fee g 1 l'.length (c + 1) ≤ total + sumValues pre) := by
  intro l
  induction l with
  | nil =>
    intro inputs total l' b h
    simp [selectSpecLoop] at h
  | cons o rest ih =>
    intro inputs total l' b h
    simp only [selectSpecLoop] at h
    by_cases hc1 : total + o.value = amount + ctx.fee g 1 (inputs ++ [o]).length c
    · rw [if_pos hc1] at h
      injection h with h'
      rw [Prod.mk.injEq] at h'
      obtain ⟨rfl, rfl⟩ := h'
      refine ⟨[o], by simp, rfl, ?_, ?_⟩
      · intro _
        rw [sumValues_cons]
        have h0 : sumValues [] = 0 := rfl
        rw [h0] at *
        omega
      · intro hb
        simp at hb
    · rw [if_neg hc1] at h
      by_cases hc2 : amount + ctx.fee g 1 (inputs ++ [o]).length (c + 1) ≤ total + o.value
      · rw [if_pos hc2] at h
        injection h with h'
        rw [Prod.mk.injEq] at h'
        obtain ⟨rfl, rfl⟩ := h'
        refine ⟨[o], by simp, rfl, ?_, ?_⟩
        · intro hb
          simp at hb
        · intro _
          rw [sumValues_cons]
          have h0 : sumValues [] = 0 := rfl
          rw [h0]
          omega
      · rw [if_neg hc2] at h
        obtain ⟨pre, hne, hl, hf, ht⟩ := ih (inputs ++ [o]) (total + o.value) l' b h
        refine ⟨o :: pre, by simp, by rw [hl]; simp, ?_, ?_⟩
        · intro hb
          have := hf hb
          rw [sumValues_cons]
          omega
        · intro hb
          have := ht hb
          rw [sumValues_cons]
          omega

theorem select_utxos_zero_nil (ctx : Ctx) (g c : Nat) (strat : UTXOSelectionStrategy) :
    select_utxos ctx 0 g c strat [] = .ok ([], false) := by
  cases strat <;> rfl

theorem select_ok_nonempty (ctx : Ctx) (amount g c : Nat) (strat : UTXOSelectionStrategy)
    (U l : List UnblindedOutput) (b : Bool) (hU : U ≠ [])
    (h : select_utxos ctx amount g c strat U = .ok (l, b)) : l ≠ [] := by
  rw [select_utxos_eq_amended, select_utxos_spec_amended, if_neg hU, select_utxos_spec] at h
  cases hsp : selectSpecLoop ctx amount g c (sortByStrategy strat U) [] 0 with
  | none =>
    rw [hsp] at h
    simp [toSelResult] at h
  | some p =>
    rw [hsp] at h
    obtain ⟨l', b'⟩ := p
    simp only [toSelResult] at h
    injection h with h'
    rw [Prod.mk.injEq] at h'
    obtain ⟨rfl, rfl⟩ := h'
    obtain ⟨pre, hne, hl, -, -⟩ := selectSpecLoop_some_inv ctx amount g c _ [] 0 l' b' hsp
    rw [hl]
    simpa using hne

/-- C8, counterexample: amount 0, constant fee 5, a single unspent output of
value 3.  The no-change fee is 5 ≠ 0, so per the claim the call should select
one output and return with `require_change = true`; the code instead fails
with `NotEnoughFunds` (3 never equals or covers 0 plus fee). -/
theorem claim_C8_counterexample :
    (constFeeCtx 5).fee 1 1 1 1 ≠ 0 ∧
    select_utxos (constFeeCtx 5) 0 1 1 .MaturityThenSmallest [⟨3, 0, 0⟩] =
      .error .NotEnoughFunds :=
  ⟨by decide, by decide⟩

/-- C8 (amended): `select_utxos` with `amount = 0` returns `([], false)`
exactly when the unspent list is empty (regardless of the fee — the fee
variables are never computed in that case); with a nonempty list it returns a
nonempty selection or fails with `NotEnoughFunds`; and every successful
selection satisfies the fee bound: with `require_change = false` (and at
least one appended output) the total equals `amount` plus the no-change fee,
with `require_change = true` the total at least covers `amount` plus the
with-change fee — so a zero amount is permitted only when the selected total
covers the corresponding fee. -/
theorem claim_C8_zero_amount :
    (∀ (ctx : Ctx) (g c : Nat) (strat : UTXOSelectionStrategy) (U : List UnblindedOutput),
      select_utxos ctx 0 g c strat U = .ok ([], false) ↔ U = []) ∧
    (∀ (ctx : Ctx) (g c : Nat) (strat : UTXOSelectionStrategy) (U l : List UnblindedOutput)
        (b : Bool), U ≠ [] → select_utxos ctx 0 g c strat U = .ok (l, b) → l ≠ []) ∧
    (∀ (ctx : Ctx) (amount g c : Nat) (strat : UTXOSelectionStrategy)
        (U l : List UnblindedOutput), l ≠ [] →
      select_utxos ctx amount g c strat U = .ok (l, false) →
      sumValues l = amount + ctx.fee g 1 l.length c) ∧
    (∀ (ctx : Ctx) (amount g c : Nat) (strat : UTXOSelectionStrategy)
        (U l : List UnblindedOutput),
      select_utxos ctx amount g c strat U = .ok (l, true) →
      amount + ctx.fee g 1 l.length (c + 1) ≤ sumValues l) := by
  refine ⟨?_, ?_, ?_, ?_⟩
  · intro ctx g c strat U
    constructor
    · intro h
      by_contra hU
      exact select_ok_nonempty ctx 0 g c strat U [] false hU h rfl
    · intro hU
      subst hU
      exact select_utxos_zero_nil ctx g c strat
  · intro ctx g c strat U l b hU h
    exact select_ok_nonempty ctx 0 g c strat U l b hU h
  · intro ctx amount g c strat U l hl h
    by_cases hU : U = []
    · subst hU
      rw [select_utxos_eq_amended, select_utxos_spec_amended, if_pos rfl] at h
      by_cases ha : amount = 0
      · rw [if_pos ha] at h
        injection h with h'
        rw [Prod.mk.injEq] at h'
        exact absurd h'.1.symm hl
      · rw [if_neg ha] at h
        simp at h
    · rw [select_utxos_eq_amended, select_utxos_spec_amended, if_neg hU,
        select_utxos_spec] at h
      cases hsp : selectSpecLoop ctx amount g c (sortByStrategy strat U) [] 0 with
      | none =>
        rw [hsp] at h
        simp [toSelResult] at h
      | some p =>
        rw [hsp] at h
        obtain ⟨l', b'⟩ := p
        simp only [toSelResult] at h
        injection h with h'
        rw [Prod.mk.injEq] at h'
        obtain ⟨rfl, rfl⟩ := h'
        obtain ⟨pre, hne, hpre, hf, -⟩ :=
          selectSpecLoop_some_inv ctx amount g c _ [] 0 l' false hsp
        have hpre' : l' = pre := by simpa using hpre
        subst hpre'
        have := hf rfl
        omega
  · intro ctx amount g c strat U l h
    by_cases hU : U = []
    · subst hU
      rw [select_utxos_eq_amended, select_utxos_spec_amended, if_pos rfl] at h
      by_cases ha : amount = 0
      · rw [if_pos ha] at h
        injection h with h'
        rw [Prod.mk.injEq] at h'
        simp at h'
      · rw [if_neg ha] at h
        simp at h
    · rw [select_utxos_eq_amended, select_utxos_spec_amended, if_neg hU,
        select_utxos_spec] at h
      cases hsp : selectSpecLoop ctx amount g c (sortByStrategy strat U) [] 0 with
      | none =>
        rw [hsp] at h
        simp [toSelResult] at h
      | some p =>
        rw [hsp] at h
        obtain ⟨l', b'⟩ := p
        simp only [toSelResult] at h
        injection h with h'
        rw [Prod.mk.injEq] at h'
        obtain ⟨rfl, rfl⟩ := h'
        obtain ⟨pre, hne, hpre, -, ht⟩ :=
          selectSpecLoop_some_inv ctx amount g c _ [] 0 l' true hsp
        have hpre' : l' = pre := by simpa using hpre
        subst hpre'
        have := ht rfl
        omega

/-- C8, witness: the amended theorem applied concretely — with amount 0 and
one output of value 1000 at fee 10 the selection returns that output with
`require_change = true`, and the with-change fee bound holds. -/
theorem claim_C8_witness :
    select_utxos (constFeeCtx 10) 0 10 1 .MaturityThenSmallest [⟨1000, 7, 0⟩] =
      .ok ([⟨1000, 7, 0⟩], true) ∧
    0 + (constFeeCtx 10).fee 10 1 [(⟨1000, 7, 0⟩ : UnblindedOutput)].length (1 + 1) ≤
      sumValues [⟨1000, 7, 0⟩] :=
  ⟨by decide,
    claim_C8_zero_amount.2.2.2 (constFeeCtx 10) 0 10 1 .MaturityThenSmallest [⟨1000, 7, 0⟩]
      [⟨1000, 7, 0⟩] (by decide)⟩

theorem coinSplitLoop_ok (aps sc cv : Nat) :
    ∀ (n km : Nat) (outs : List UnblindedOutput),
      coinSplitLoop aps sc cv true n km outs =
        (km + n,
         outs ++ (List.range n).map
           (fun i => ⟨if outs.length + i < sc then aps else cv, km + i, 0⟩),
         n, true) := by
  intro n
  induction n with
  | zero =>
    intro km outs
    simp [coinSplitLoop]
  | succ n ih =>
    intro km outs
    rw [coinSplitLoop]
    simp only [if_true]
    rw [ih (km + 1)
      (outs ++ [(⟨if outs.length < sc then aps else cv, km, 0⟩ : UnblindedOutput)])]
    have hmap : (List.range (n + 1)).map
          (fun i => (⟨if outs.length + i < sc then aps else cv, km + i, 0⟩ : UnblindedOutput)) =
        (⟨if outs.length < sc then aps else cv, km, 0⟩ : UnblindedOutput) ::
          (List.range n).map
            (fun i => ⟨if outs.length + 1 + i < sc then aps else cv, km + 1 + i, 0⟩) := by
      rw [List.range_succ_eq_map, List.map_cons, List.map_map]
      refine congrArg₂ List.cons (by simp) ?_
      refine List.map_congr_left ?_
      intro i _
      have e1 : outs.length + (i + 1) = outs.length + 1 + i := by omega
      have e2 : km + (i + 1) = km + 1 + i := by omega
      simp only [Function.comp_apply, Nat.succ_eq_add_one, e1, e2]
    rw [hmap]
    have e3 : km + 1 + n = km + (n + 1) := by omega
    have e4 : (outs ++ [(⟨if outs.length < sc then aps else cv, km, 0⟩ : UnblindedOutput)]).length
        = outs.length + 1 := by simp
    simp only [e3, e4, List.append_assoc, List.singleton_append]

theorem applyTrace_replicate_inc : ∀ (k : Nat) (st : Store),
    applyTrace st (List.replicate k StoreEvent.incrementKeyIndex) =
      { st with primary_key_index := st.primary_key_index + k } := by
  intro k
  induction k with
  | zero => intro st; rfl
  | succ k ih =>
    intro st
    have h1 : List.replicate (k + 1) StoreEvent.incrementKeyIndex =
        StoreEvent.incrementKeyIndex :: List.replicate k StoreEvent.incrementKeyIndex :=
      List.replicate_succ _ _
    simp only [applyTrace] at ih ⊢
    rw [h1, List.foldl_cons]
    have h2 : applyStoreEvent st .incrementKeyIndex =
        { st with primary_key_index := st.primary_key_index + 1 } := rfl
    rw [h2, ih]
    have h3 : st.primary_key_index + 1 + k = st.primary_key_index + (k + 1) := by omega
    rw [h3]

theorem promote_map_fresh (t : Nat) (pend : List PendingTxRecord)
    (h : ∀ r ∈ pend, r.tx_id ≠ t) (rec : PendingTxRecord) (hrec : rec.tx_id = t) :
    (pend ++ [rec]).map
        (fun r => if r.tx_id = t then { r with short_term := false } else r) =
      pend ++ [{ rec with short_term := false }] := by
  rw [List.map_append]
  have h1 : pend.map
      (fun r => if r.tx_id = t then { r with short_term := false } else r) = pend := by
    have h2 : pend.map
        (fun r => if r.tx_id = t then { r with short_term := false } else r) =
        pend.map id :=
      List.map_congr_left (fun r hr => by simp [h r hr])
    rw [h2, List.map_id]
  rw [h1]
  simp [hrec]

theorem applyTrace_append (st : Store) (t1 t2 : List StoreEvent) :
    applyTrace st (t1 ++ t2) = applyTrace (applyTrace st t1) t2 :=
  List.foldl_append applyStoreEvent st t1 t2

theorem applyTrace_inc_enc_conf (st : Store) (n t : Nat)
    (ins outs : List UnblindedOutput) (hfresh : ∀ r ∈ st.pending, r.tx_id ≠ t) :
    applyTrace st (List.replicate n StoreEvent.incrementKeyIndex ++
        [StoreEvent.encumberOutputs t ins outs, StoreEvent.confirmEncumbered t]) =
      { primary_key_index := st.primary_key_index + n,
        unspent := st.unspent.filter (fun uo => decide (uo ∉ ins)),
        invalid := st.invalid,
        pending := st.pending ++ [⟨t, ins, outs, false⟩] } := by
  rw [applyTrace_append, applyTrace_replicate_inc]
  simp only [applyTrace, List.foldl_cons, List.foldl_nil, applyStoreEvent]
  rw [promote_map_fresh t st.pending hfresh ⟨t, ins, outs, true⟩ rfl]

/-- C9: on its success path `create_coin_split(amount_per_split, split_count,
fee_per_gram, lock_height)` returns `(tx_id, tx, fee, utxo_total)` where the
transaction carries `split_count` outputs of value `amount_per_split` plus,
exactly when the selection required change, one residual output of value
`utxo_total - fee - split_count * amount_per_split`; each output consumes a
freshly derived key (consecutive indices from the in-memory key-manager
index) with one persisted index increment per output; the selected inputs
are encumbered against all the outputs and `confirm_encumberance(tx_id)` is
invoked right after, so the pending record has already left the short-term
state. -/
theorem claim_C9_create_coin_split :
    ∀ (ctx : Ctx) (s : SvcState) (aps sc g : Nat) (lh : Option Nat) (t : Nat)
      (inputs : List UnblindedOutput) (rc : Bool),
      select_utxos ctx (aps * sc) g sc .MaturityThenSmallest s.store.unspent =
        .ok (inputs, rc) →
      ctx.fee g 1 inputs.length (if rc then sc + 1 else sc) + aps * sc ≤ sumValues inputs →
      (∀ r ∈ s.store.pending, r.tx_id ≠ t) →
      (create_coin_split ctx s aps sc g lh true true t).result =
          .ok (t,
            ⟨inputs,
              (List.range (if rc then sc + 1 else sc)).map (fun i =>
                ⟨if i < sc then aps
                  else sumValues inputs -
                    ctx.fee g 1 inputs.length (if rc then sc + 1 else sc) - aps * sc,
                  s.key_manager_index + i, 0⟩)⟩,
            ctx.fee g 1 inputs.length (if rc then sc + 1 else sc), sumValues inputs) ∧
      (create_coin_split ctx s aps sc g lh true true t).state.key_manager_index =
          s.key_manager_index + (if rc then sc + 1 else sc) ∧
      (create_coin_split ctx s aps sc g lh true true t).state.store.primary_key_index =
          s.store.primary_key_index + (if rc then sc + 1 else sc) ∧
      (create_coin_split ctx s aps sc g lh true true t).state.store.pending =
          s.store.pending ++
            [⟨t, inputs,
              (List.range (if rc then sc + 1 else sc)).map (fun i =>
                ⟨if i < sc then aps
                  else sumValues inputs -
                    ctx.fee g 1 inputs.length (if rc then sc + 1 else sc) - aps * sc,
                  s.key_manager_index + i, 0⟩), false⟩] ∧
      (create_coin_split ctx s aps sc g lh true true t).state.store.unspent =
          s.store.unspent.filter (fun uo => decide (uo ∉ inputs)) ∧
      (create_coin_split ctx s aps sc g lh true true t).state.store.invalid =
          s.store.invalid := by
  intro ctx s aps sc g lh t inputs rc hsel hfee hfresh
  have hrem : checkedSub (sumValues inputs)
      (ctx.fee g 1 inputs.length (if rc then sc + 1 else sc)) =
      some (sumValues inputs - ctx.fee g 1 inputs.length (if rc then sc + 1 else sc)) := by
    unfold checkedSub
    rw [if_pos (by omega)]
  have hcv : checkedSub
      (sumValues inputs - ctx.fee g 1 inputs.length (if rc then sc + 1 else sc))
      (aps * sc) =
      some (sumValues inputs -
        ctx.fee g 1 inputs.length (if rc then sc + 1 else sc) - aps * sc) := by
    unfold checkedSub
    rw [if_pos (by omega)]
  have hloop := coinSplitLoop_ok aps sc
    (sumValues inputs - ctx.fee g 1 inputs.length (if rc then sc + 1 else sc) - aps * sc)
    (if rc then sc + 1 else sc) s.key_manager_index []
  simp only [List.length_nil, Nat.zero_add, List.nil_append] at hloop
  simp only [create_coin_split, hsel, hrem, hcv, hloop, eq_self_iff_true, if_true]
  rw [applyTrace_inc_enc_conf s.store (if rc then sc + 1 else sc) t inputs _ hfresh]
  simp

/-- C9, witness: the spec's 3-way-split scenario — one unspent output of
10000, three splits of 1000 at constant fee 100: the call returns
`(77, tx, 100, 10000)` with three 1000-outputs on keys 0, 1, 2 and a 6900
change output on key 3, and the store holds the confirmed (non-short-term)
pending record. -/
theorem claim_C9_witness :
    select_utxos (constFeeCtx 100) (1000 * 3) 5 3 .MaturityThenSmallest
        sOne10000.store.unspent = .ok ([⟨10000, 42, 0⟩], true) ∧
    (create_coin_split (constFeeCtx 100) sOne10000 1000 3 5 none true true 77).result =
      .ok (77,
        ⟨[⟨10000, 42, 0⟩], [⟨1000, 0, 0⟩, ⟨1000, 1, 0⟩, ⟨1000, 2, 0⟩, ⟨6900, 3, 0⟩]⟩,
        100, 10000) ∧
    (create_coin_split (constFeeCtx 100) sOne10000 1000 3 5 none true true
        77).state.store.pending =
      [⟨77, [⟨10000, 42, 0⟩],
        [⟨1000, 0, 0⟩, ⟨1000, 1, 0⟩, ⟨1000, 2, 0⟩, ⟨6900, 3, 0⟩], false⟩] :=
  ⟨by decide,
   (claim_C9_create_coin_split (constFeeCtx 100) sOne10000 1000 3 5 none 77
     [⟨10000, 42, 0⟩] true (by decide) (by decide) (by decide)).1,
   (claim_C9_create_coin_split (constFeeCtx 100) sOne10000 1000 3 5 none 77
     [⟨10000, 42, 0⟩] true (by decide) (by decide) (by decide)).2.2.2.1⟩

theorem applyStoreEvent_pki_le (st : Store) (e : StoreEvent) :
    st.primary_key_index ≤ (applyStoreEvent st e).primary_key_index := by
  cases e <;> simp [applyStoreEvent]

theorem applyTrace_pki_le (st : Store) (tr : List StoreEvent) :
    st.primary_key_index ≤ (applyTrace st tr).primary_key_index := by
  induction tr generalizing st with
  | nil => exact Nat.le_refl _
  | cons e rest ih =>
    exact Nat.le_trans (applyStoreEvent_pki_le st e) (ih (applyStoreEvent st e))

theorem store_trace_get_recipient (s : SvcState) (t a : Nat) (po : Bool) :
    (get_recipient_spending_key s t a po).state.store =
      applyTrace s.store (get_recipient_spending_key s t a po).trace := by
  cases po <;> rfl

theorem store_trace_get_coinbase (s : SvcState) (t a m : Nat) (po : Bool) :
    (get_coinbase_spending_key s t a m po).state.store =
      applyTrace s.store (get_coinbase_spending_key s t a m po).trace := by
  cases po <;> rfl

theorem store_trace_prepare (ctx : Ctx) (s : SvcState) (a g : Nat) (lh : Option Nat)
    (bo po : Bool) (t : Nat) :
    (prepare_transaction_to_send ctx s a g lh bo po t).state.store =
      applyTrace s.store (prepare_transaction_to_send ctx s a g lh bo po t).trace := by
  cases hsel : select_utxos ctx a g 1 .MaturityThenSmallest s.store.unspent with
  | error e => simp [prepare_transaction_to_send, hsel, applyTrace]
  | ok p =>
    obtain ⟨outputs, rc⟩ := p
    simp only [prepare_transaction_to_send, hsel]
    by_cases hch : a + ctx.fee g 1 outputs.length 1 < sumValues outputs
    · rw [if_pos hch]
      cases po <;> cases bo <;> rfl
    · rw [if_neg hch]
      cases bo <;> rfl

theorem store_trace_coin_split (ctx : Ctx) (s : SvcState) (aps sc g : Nat)
    (lh : Option Nat) (bo po : Bool) (t : Nat) :
    (create_coin_split ctx s aps sc g lh bo po t).state.store =
      applyTrace s.store (create_coin_split ctx s aps sc g lh bo po t).trace := by
  cases hsel : select_utxos ctx (aps * sc) g sc .MaturityThenSmallest s.store.unspent with
  | error e => simp [create_coin_split, hsel, applyTrace]
  | ok p =>
    obtain ⟨inputs, rc⟩ := p
    simp only [create_coin_split, hsel]
    cases hrem : checkedSub (sumValues inputs)
        (ctx.fee g 1 inputs.length (if rc then sc + 1 else sc)) with
    | none => simp [hrem, applyTrace]
    | some rem =>
      simp only [hrem]
      cases hcv : checkedSub rem (aps * sc) with
      | none => simp [hcv, applyTrace]
      | some cv =>
        simp only [hcv]
        split <;> (try split) <;> (try split) <;> rfl

theorem store_trace_hbnr (ctx : Ctx) (s : SvcState) (resp : BaseNodeResponse) :
    (handle_base_node_response ctx s resp).state.store =
      applyTrace s.store (handle_base_node_response ctx s resp).trace := by
  cases hresp : resp.response with
  | none => simp [handle_base_node_response, hresp, applyTrace]
  | some outs =>
    simp only [handle_base_node_response, hresp]
    cases hlook : lookupQuery resp.request_key s.pending_utxo_query_keys with
    | none => simp [applyTrace]
    | some q =>
      cases hrr : removeResponseHashes (buildOutputHashes ctx s.store.unspent q) outs with
      | error e => simp [hrr, applyTrace]
      | ok remaining => simp [hrr]

theorem store_trace_timeout (ctx : Ctx) (s : SvcState) (qk fk : Nat) :
    (handle_utxo_query_timeout ctx s qk fk).state.store =
      applyTrace s.store (handle_utxo_query_timeout ctx s qk fk).trace := by
  cases hlook : lookupQuery qk s.pending_utxo_query_keys with
  | none => simp [handle_utxo_query_timeout, hlook, applyTrace]
  | some q =>
    simp only [handle_utxo_query_timeout, hlook]
    cases hpk : s.base_node_key_set with
    | false => simp [query_unspent_outputs_status, hpk, applyTrace]
    | true => simp [query_unspent_outputs_status, hpk, applyTrace]

theorem store_trace_set_pk (ctx : Ctx) (s : SvcState) (fk : Nat) :
    (set_base_node_public_key ctx s fk).state.store =
      applyTrace s.store (set_base_node_public_key ctx s fk).trace := by
  cases hpk : s.base_node_key_set with
  | false => simp [set_base_node_public_key, query_unspent_outputs_status, hpk, applyTrace]
  | true => simp [set_base_node_public_key, query_unspent_outputs_status, hpk, applyTrace]

theorem store_trace_query (ctx : Ctx) (s : SvcState) (fk : Nat) :
    (query_unspent_outputs_status ctx s fk).state.store =
      applyTrace s.store (query_unspent_outputs_status ctx s fk).trace := by
  cases hpk : s.base_node_key_set with
  | false => simp [query_unspent_outputs_status, hpk, applyTrace]
  | true => simp [query_unspent_outputs_status, hpk, applyTrace]

theorem step_pki_mono (ctx : Ctx) (s : SvcState) (op : Op) :
    s.store.primary_key_index ≤ (step ctx s op).store.primary_key_index := by
  cases op with
  | addOutput uo =>
    exact applyTrace_pki_le s.store _
  | getRecipientKey t a po =>
    show s.store.primary_key_index ≤
      (get_recipient_spending_key s t a po).state.store.primary_key_index
    rw [store_trace_get_recipient]
    exact applyTrace_pki_le s.store _
  | getCoinbaseKey t a m po =>
    show s.store.primary_key_index ≤
      (get_coinbase_spending_key s t a m po).state.store.primary_key_index
    rw [store_trace_get_coinbase]
    exact applyTrace_pki_le s.store _
  | prepareToSend a g lh bo po t =>
    show s.store.primary_key_index ≤
      (prepare_transaction_to_send ctx s a g lh bo po t).state.store.primary_key_index
    rw [store_trace_prepare]
    exact applyTrace_pki_le s.store _
  | createCoinSplit aps sc g lh bo po t =>
    show s.store.primary_key_index ≤
      (create_coin_split ctx s aps sc g lh bo po t).state.store.primary_key_index
    rw [store_trace_coin_split]
    exact applyTrace_pki_le s.store _
  | confirmPendingTransaction t =>
    exact applyTrace_pki_le s.store _
  | cancelTransaction t =>
    exact applyTrace_pki_le s.store _
  | setBaseNodePublicKey fk =>
    show s.store.primary_key_index ≤
      (set_base_node_public_key ctx s fk).state.store.primary_key_index
    rw [store_trace_set_pk]
    exact applyTrace_pki_le s.store _
  | syncWithBaseNode fk =>
    show s.store.primary_key_index ≤
      (query_unspent_outputs_status ctx s fk).state.store.primary_key_index
    rw [store_trace_query]
    exact applyTrace_pki_le s.store _
  | baseNodeResponse resp =>
    show s.store.primary_key_index ≤
      (handle_base_node_response ctx s resp).state.store.primary_key_index
    rw [store_trace_hbnr]
    exact applyTrace_pki_le s.store _
  | utxoQueryTimeout qk fk =>
    show s.store.primary_key_index ≤
      (handle_utxo_query_timeout ctx s qk fk).state.store.primary_key_index
    rw [store_trace_timeout]
    exact applyTrace_pki_le s.store _

theorem persistedBeforeUse_replicate (n : Nat) :
    ∀ (p : Nat) (rest : List StoreEvent),
      persistedBeforeUse p (List.replicate n StoreEvent.incrementKeyIndex ++ rest) =
        persistedBeforeUse (p + n) rest := by
  induction n with
  | zero => intro p rest; simp
  | succ n ih =>
    intro p rest
    rw [List.replicate_succ, List.cons_append]
    have h1 : persistedBeforeUse p (StoreEvent.incrementKeyIndex ::
        (List.replicate n StoreEvent.incrementKeyIndex ++ rest)) =
        persistedBeforeUse (p + 1)
          (List.replicate n StoreEvent.incrementKeyIndex ++ rest) := by
      simp [persistedBeforeUse, issuedKeysInEvent]
    rw [h1, ih (p + 1)]
    have h2 : p + 1 + n = p + (n + 1) := by omega
    rw [h2]

theorem persistedBeforeUse_inc_enc_conf (p n t : Nat) (ins outs : List UnblindedOutput)
    (houts : ∀ uo ∈ outs, uo.spending_key < p + n) :
    persistedBeforeUse p (List.replicate n StoreEvent.incrementKeyIndex ++
        [StoreEvent.encumberOutputs t ins outs, StoreEvent.confirmEncumbered t]) = true := by
  rw [persistedBeforeUse_replicate]
  simp only [persistedBeforeUse, issuedKeysInEvent, Bool.and_eq_true, List.all_eq_true,
    decide_eq_true_eq, List.all_nil, and_true]
  intro k hk
  obtain ⟨uo, huo, rfl⟩ := List.mem_map.mp hk
  exact houts uo huo

theorem persist_first_get_recipient (s : SvcState) (t a : Nat) (po : Bool)
    (hsync : s.key_manager_index = s.store.primary_key_index) :
    persistedBeforeUse s.store.primary_key_index
      ((get_recipient_spending_key s t a po).trace) = true := by
  cases po with
  | false => rfl
  | true =>
    have hlt : s.key_manager_index < s.store.primary_key_index + 1 := by omega
    simp [get_recipient_spending_key, persistedBeforeUse, issuedKeysInEvent, hlt]

theorem persist_first_get_coinbase (s : SvcState) (t a m : Nat) (po : Bool)
    (hsync : s.key_manager_index = s.store.primary_key_index) :
    persistedBeforeUse s.store.primary_key_index
      ((get_coinbase_spending_key s t a m po).trace) = true := by
  cases po with
  | false => rfl
  | true =>
    have hlt : s.key_manager_index < s.store.primary_key_index + 1 := by omega
    simp [get_coinbase_spending_key, persistedBeforeUse, issuedKeysInEvent, hlt]

theorem persist_first_prepare (ctx : Ctx) (s : SvcState) (a g : Nat) (lh : Option Nat)
    (bo po : Bool) (t : Nat)
    (hsync : s.key_manager_index = s.store.primary_key_index) :
    persistedBeforeUse s.store.primary_key_index
      ((prepare_transaction_to_send ctx s a g lh bo po t).trace) = true := by
  cases hsel : select_utxos ctx a g 1 .MaturityThenSmallest s.store.unspent with
  | error e => simp [prepare_transaction_to_send, hsel, persistedBeforeUse]
  | ok p =>
    obtain ⟨outputs, rc⟩ := p
    simp only [prepare_transaction_to_send, hsel]
    by_cases hch : a + ctx.fee g 1 outputs.length 1 < sumValues outputs
    · rw [if_pos hch]
      cases po with
      | false => rfl
      | true =>
        cases bo with
        | false => simp [persistedBeforeUse, issuedKeysInEvent]
        | true =>
          have hlt : s.key_manager_index < s.store.primary_key_index + 1 := by omega
          simp [persistedBeforeUse, issuedKeysInEvent, hlt]
    · rw [if_neg hch]
      cases bo with
      | false => rfl
      | true => simp [persistedBeforeUse, issuedKeysInEvent]

theorem persist_first_coin_split (ctx : Ctx) (s : SvcState) (aps sc g : Nat)
    (lh : Option Nat) (bo po : Bool) (t : Nat)
    (hsync : s.key_manager_index = s.store.primary_key_index) :
    persistedBeforeUse s.store.primary_key_index
      ((create_coin_split ctx s aps sc g lh bo po t).trace) = true := by
  cases hsel : select_utxos ctx (aps * sc) g sc .MaturityThenSmallest s.store.unspent with
  | error e => simp [create_coin_split, hsel, persistedBeforeUse]
  | ok p =>
    obtain ⟨inputs, rc⟩ := p
    simp only [create_coin_split, hsel]
    cases hrem : checkedSub (sumValues inputs)
        (ctx.fee g 1 inputs.length (if rc then sc + 1 else sc)) with
    | none => simp [hrem, persistedBeforeUse]
    | some rem =>
      simp only [hrem]
      cases hcv : checkedSub rem (aps * sc) with
      | none => simp [hcv, persistedBeforeUse]
      | some cv =>
        simp only [hcv]
        cases po with
        | true =>
          have hloop := coinSplitLoop_ok aps sc cv (if rc then sc + 1 else sc)
            s.key_manager_index []
          simp only [List.length_nil, Nat.zero_add, List.nil_append] at hloop
          simp only [hloop, eq_self_iff_true, if_true]
          cases bo with
          | true =>
            refine persistedBeforeUse_inc_enc_conf _ _ _ _ _ ?_
            intro uo huo
            simp only [List.mem_map, List.mem_range] at huo
            obtain ⟨i, hi, rfl⟩ := huo
            simp only []
            omega
          | false =>
            simp only [Bool.false_eq_true, if_false]
            have h0 := persistedBeforeUse_replicate (if rc then sc + 1 else sc)
              s.store.primary_key_index []
            rw [List.append_nil] at h0
            rw [h0]
            rfl
        | false =>
          cases houtc : (if rc then sc + 1 else sc) with
          | zero =>
            simp only [houtc, coinSplitLoop, eq_self_iff_true, if_true]
            cases bo with
            | true => simp [persistedBeforeUse, issuedKeysInEvent]
            | false => rfl
          | succ n =>
            simp only [houtc, coinSplitLoop]
            simp [persistedBeforeUse]

theorem pki_prepare_success (ctx : Ctx) (s : SvcState) (a g : Nat) (lh : Option Nat)
    (t : Nat) (txr : ModelTransaction)
    (h : (prepare_transaction_to_send ctx s a g lh true true t).result = .ok txr) :
    (prepare_transaction_to_send ctx s a g lh true true t).state.store.primary_key_index =
      s.store.primary_key_index + txr.outputs.length := by
  cases hsel : select_utxos ctx a g 1 .MaturityThenSmallest s.store.unspent with
  | error e => simp [prepare_transaction_to_send, hsel] at h
  | ok p =>
    obtain ⟨outputs, rc⟩ := p
    simp only [prepare_transaction_to_send, hsel] at h ⊢
    by_cases hch : a + ctx.fee g 1 outputs.length 1 < sumValues outputs
    · rw [if_pos hch] at h ⊢
      injection h with h'
      subst h'
      simp [applyTrace, applyStoreEvent]
    · rw [if_neg hch] at h ⊢
      injection h with h'
      subst h'
      simp [applyTrace, applyStoreEvent]

theorem pki_coin_split_success (ctx : Ctx) (s : SvcState) (aps sc g : Nat)
    (lh : Option Nat) (t : Nat) (r : Nat × ModelTransaction × Nat × Nat)
    (h : (create_coin_split ctx s aps sc g lh true true t).result = .ok r) :
    (create_coin_split ctx s aps sc g lh true true t).state.store.primary_key_index =
      s.store.primary_key_index + r.2.1.outputs.length := by
  cases hsel : select_utxos ctx (aps * sc) g sc .MaturityThenSmallest s.store.unspent with
  | error e => simp [create_coin_split, hsel] at h
  | ok p =>
    obtain ⟨inputs, rc⟩ := p
    simp only [create_coin_split, hsel] at h ⊢
    cases hrem : checkedSub (sumValues inputs)
        (ctx.fee g 1 inputs.length (if rc then sc + 1 else sc)) with
    | none => simp [hrem] at h
    | some rem =>
      simp only [hrem] at h ⊢
      cases hcv : checkedSub rem (aps * sc) with
      | none => simp [hcv] at h
      | some cv =>
        simp only [hcv] at h ⊢
        have hloop := coinSplitLoop_ok aps sc cv (if rc then sc + 1 else sc)
          s.key_manager_index []
        simp only [List.length_nil, Nat.zero_add, List.nil_append] at hloop
        simp only [hloop, eq_self_iff_true, if_true] at h ⊢
        injection h with h'
        subst h'
        rw [applyTrace_append, applyTrace_replicate_inc]
        simp [applyTrace, applyStoreEvent]

/-- C3: (1) across any sequence of actor-loop operations the persisted
`primary_key_index` is non-decreasing (also per single step, over every
operation including failures); (2) each successful key issuance increases it
by exactly one per issued key — one for a recipient key, one for a coinbase
key, one per output of the prepared transaction's change list, one per
coin-split output; and (3) in the store-mutation trace of every issuance
site, with the in-memory key-manager index in sync with the persisted index,
the `increment_key_index` persisting past a key precedes every store record
that exposes that key, and a returned recipient key is already below the
persisted index at return time. -/
theorem claim_C3_key_index_monotone_persist_first :
    (∀ (ctx : Ctx) (s : SvcState) (ops : List Op),
      s.store.primary_key_index ≤ (ops.foldl (step ctx) s).store.primary_key_index) ∧
    (∀ (ctx : Ctx) (s : SvcState) (op : Op),
      s.store.primary_key_index ≤ (step ctx s op).store.primary_key_index) ∧
    (∀ (s : SvcState) (t a : Nat),
      (get_recipient_spending_key s t a true).state.store.primary_key_index =
        s.store.primary_key_index + 1) ∧
    (∀ (s : SvcState) (t a m : Nat),
      (get_coinbase_spending_key s t a m true).state.store.primary_key_index =
        s.store.primary_key_index + 1) ∧
    (∀ (ctx : Ctx) (s : SvcState) (a g : Nat) (lh : Option Nat) (t : Nat)
        (txr : ModelTransaction),
      (prepare_transaction_to_send ctx s a g lh true true t).result = .ok txr →
      (prepare_transaction_to_send ctx s a g lh true true t).state.store.primary_key_index =
        s.store.primary_key_index + txr.outputs.length) ∧
    (∀ (ctx : Ctx) (s : SvcState) (aps sc g : Nat) (lh : Option Nat) (t : Nat)
        (r : Nat × ModelTransaction × Nat × Nat),
      (create_coin_split ctx s aps sc g lh true true t).result = .ok r →
      (create_coin_split ctx s aps sc g lh true true t).state.store.primary_key_index =
        s.store.primary_key_index + r.2.1.outputs.length) ∧
    (∀ (s : SvcState) (t a : Nat) (po : Bool),
      s.key_manager_index = s.store.primary_key_index →
      persistedBeforeUse s.store.primary_key_index
        ((get_recipient_spending_key s t a po).trace) = true) ∧
    (∀ (s : SvcState) (t a m : Nat) (po : Bool),
      s.key_manager_index = s.store.primary_key_index →
      persistedBeforeUse s.store.primary_key_index
        ((get_coinbase_spending_key s t a m po).trace) = true) ∧
    (∀ (ctx : Ctx) (s : SvcState) (a g : Nat) (lh : Option Nat) (bo po : Bool) (t : Nat),
      s.key_manager_index = s.store.primary_key_index →
      persistedBeforeUse s.store.primary_key_index
        ((prepare_transaction_to_send ctx s a g lh bo po t).trace) = true) ∧
    (∀ (ctx : Ctx) (s : SvcState) (aps sc g : Nat) (lh : Option Nat) (bo po : Bool)
        (t : Nat),
      s.key_manager_index = s.store.primary_key_index →
      persistedBeforeUse s.store.primary_key_index
        ((create_coin_split ctx s aps sc g lh bo po t).trace) = true) ∧
    (∀ (s : SvcState) (t a : Nat),
      s.key_manager_index = s.store.primary_key_index →
      (get_recipient_spending_key s t a true).result = .ok s.key_manager_index ∧
      s.key_manager_index <
        (get_recipient_spending_key s t a true).state.store.primary_key_index) := by
  refine ⟨?_, step_pki_mono, fun s t a => rfl, fun s t a m => rfl, pki_prepare_success,
    pki_coin_split_success, persist_first_get_recipient, persist_first_get_coinbase,
    persist_first_prepare, persist_first_coin_split, ?_⟩
  · intro ctx s ops
    induction ops generalizing s with
    | nil => exact Nat.le_refl _
    | cons op rest ih =>
      exact Nat.le_trans (step_pki_mono ctx s op) (ih (step ctx s op))
  · intro s t a hsync
    refine ⟨rfl, ?_⟩
    have h1 : (get_recipient_spending_key s t a true).state.store.primary_key_index =
        s.store.primary_key_index + 1 := rfl
    omega

/-- C3, witness: starting from the empty in-sync state, issuing a recipient
key persists the incremented index (0 → 1) with the increment preceding the
store record that exposes key 0 in the mutation trace. -/
theorem claim_C3_witness :
    sEmpty.key_manager_index = sEmpty.store.primary_key_index ∧
    persistedBeforeUse sEmpty.store.primary_key_index
      ((get_recipient_spending_key sEmpty 1 100 true).trace) = true ∧
    (get_recipient_spending_key sEmpty 1 100 true).state.store.primary_key_index =
      sEmpty.store.primary_key_index + 1 :=
  ⟨by decide,
   claim_C3_key_index_monotone_persist_first.2.2.2.2.2.2.1 sEmpty 1 100 true (by decide),
   claim_C3_key_index_monotone_persist_first.2.2.1 sEmpty 1 100⟩

theorem buildOutputHashes_go (ctx : Ctx) (q : List Nat) :
    ∀ (U : List UnblindedOutput) (m : List (Nat × UnblindedOutput)),
      (U.map ctx.hashOf).Nodup →
      (∀ p ∈ m, ∀ uo ∈ U, p.1 ≠ ctx.hashOf uo) →
      U.foldl
          (fun m uo => if ctx.hashOf uo ∈ q then insertHash (ctx.hashOf uo) uo m else m) m =
        m ++ (U.filter (fun uo => decide (ctx.hashOf uo ∈ q))).map
          (fun uo => (ctx.hashOf uo, uo)) := by
  intro U
  induction U with
  | nil => intro m hnd hfr; simp
  | cons u U' ih =>
    intro m hnd hfr
    have hnds : ctx.hashOf u ∉ U'.map ctx.hashOf ∧ (U'.map ctx.hashOf).Nodup :=
      List.nodup_cons.mp (by simpa using hnd)
    rw [List.foldl_cons]
    by_cases hq : ctx.hashOf u ∈ q
    · rw [if_pos hq]
      have hins : insertHash (ctx.hashOf u) u m = m ++ [(ctx.hashOf u, u)] := by
        rw [insertHash]
        have hself : m.filter (fun p => decide (p.1 ≠ ctx.hashOf u)) = m := by
          rw [List.filter_eq_self]
          intro p hp
          exact decide_eq_true (hfr p hp u (List.mem_cons_self u U'))
        rw [hself]
      rw [hins, ih (m ++ [(ctx.hashOf u, u)]) hnds.2 ?_]
      · rw [List.filter_cons_of_pos (by exact decide_eq_true hq), List.map_cons,
          List.append_assoc, List.singleton_append]
      · intro p hp uo huo
        rcases List.mem_append.mp hp with hp1 | hp2
        · exact hfr p hp1 uo (List.mem_cons_of_mem u huo)
        · have hp2' : p = (ctx.hashOf u, u) := by simpa using hp2
          subst hp2'
          intro hc
          have hc' : ctx.hashOf u = ctx.hashOf uo := hc
          exact hnds.1 (by rw [hc']; exact List.mem_map_of_mem ctx.hashOf huo)
    · rw [if_neg hq]
      rw [ih m hnds.2 (fun p hp uo huo => hfr p hp uo (List.mem_cons_of_mem u huo))]
      rw [List.filter_cons_of_neg (by simpa using hq)]

theorem buildOutputHashes_eq (ctx : Ctx) (q : List Nat) (U : List UnblindedOutput)
    (hnd : (U.map ctx.hashOf).Nodup) :
    buildOutputHashes ctx U q =
      (U.filter (fun uo => decide (ctx.hashOf uo ∈ q))).map (fun uo => (ctx.hashOf uo, uo)) := by
  rw [buildOutputHashes, buildOutputHashes_go ctx q U [] hnd (by intro p hp; simp at hp)]
  rw [List.nil_append]

theorem removeResponseHashes_ok :
    ∀ (outs : List RespOutput) (m : List (Nat × UnblindedOutput)),
      RespOutput.malformed ∉ outs →
      removeResponseHashes m outs =
        .ok (m.filter (fun p => decide (p.1 ∉ validHashes outs))) := by
  intro outs
  induction outs with
  | nil =>
    intro m h
    simp [removeResponseHashes, validHashes]
  | cons o rest ih =>
    intro m h
    cases o with
    | malformed => exact absurd (List.mem_cons_self _ _) h
    | valid hx =>
      have h' : RespOutput.malformed ∉ rest := fun hc => h (List.mem_cons_of_mem _ hc)
      show removeResponseHashes (eraseHash hx m) rest = _
      rw [ih (eraseHash hx m) h']
      congr 1
      rw [eraseHash, List.filter_filter]
      refine List.filter_congr ?_
      intro p hp
      by_cases h1 : p.1 = hx
      · simp [validHashes, h1]
      · by_cases h2 : p.1 ∈ validHashes rest
        · simp [validHashes, h1, h2]
        · simp [validHashes, h1, h2]

theorem applyTrace_invalidate :
    ∀ (l : List UnblindedOutput) (st : Store), l.Nodup → (∀ x ∈ l, x ∈ st.unspent) →
      st.unspent.Nodup →
      applyTrace st (l.map (fun uo => StoreEvent.invalidateOutput uo)) =
        { st with
          unspent := st.unspent.filter (fun uo => decide (uo ∉ l)),
          invalid := st.invalid ++ l } := by
  intro l
  induction l with
  | nil =>
    intro st hnd hsub hund
    simp [applyTrace]
  | cons x l' ih =>
    intro st hnd hsub hund
    have hx : x ∉ l' := (List.nodup_cons.mp hnd).1
    have hnd' : l'.Nodup := (List.nodup_cons.mp hnd).2
    rw [List.map_cons]
    have hstep : applyTrace st
        (StoreEvent.invalidateOutput x :: l'.map (fun uo => StoreEvent.invalidateOutput uo)) =
        applyTrace { st with unspent := st.unspent.erase x, invalid := st.invalid ++ [x] }
          (l'.map (fun uo => StoreEvent.invalidateOutput uo)) := rfl
    rw [hstep, ih _ hnd' ?_ ?_]
    · have herase : st.unspent.erase x = st.unspent.filter (fun uo => uo != x) :=
        hund.erase_eq_filter x
      rw [herase, List.filter_filter]
      have hfc : st.unspent.filter
            (fun uo => decide (uo ∉ l') && (uo != x)) =
          st.unspent.filter (fun uo => decide (uo ∉ x :: l')) := by
        refine List.filter_congr ?_
        intro uo huo
        by_cases h1 : uo = x
        · simp [h1]
        · by_cases h2 : uo ∈ l'
          · simp [h1, h2]
          · simp [h1, h2]
      rw [hfc, List.append_assoc, List.singleton_append]
    · intro y hy
      have hyx : y ≠ x := fun hc => hx (hc ▸ hy)
      exact (List.mem_erase_of_ne hyx).mpr (hsub y (List.mem_cons_of_mem x hy))
    · exact hund.erase x

/-- C2: a base-node response whose `request_key` is not pending is ignored —
no store mutation, no event; when the key is pending (and the payload is the
well-formed `TransactionOutputs` variant, hashes of the unspent outputs being
distinct), the entry is consumed and exactly those outputs that are currently
`Unspent`, whose hash was queried and whose hash is absent from the response
payload move from `Unspent` to `Invalid`, after which a single
`ReceiveBaseNodeResponse(request_key)` event is published. -/
theorem claim_C2_base_node_response :
    (∀ (ctx : Ctx) (s : SvcState) (resp : BaseNodeResponse) (outs : List RespOutput),
      resp.response = some outs →
      lookupQuery resp.request_key s.pending_utxo_query_keys = none →
      handle_base_node_response ctx s resp = ⟨s, [], [], [], .ok ()⟩) ∧
    (∀ (ctx : Ctx) (s : SvcState) (resp : BaseNodeResponse) (outs : List RespOutput)
        (q : List Nat),
      resp.response = some outs →
      RespOutput.malformed ∉ outs →
      lookupQuery resp.request_key s.pending_utxo_query_keys = some q →
      (s.store.unspent.map ctx.hashOf).Nodup →
      handle_base_node_response ctx s resp =
        ⟨⟨⟨s.store.primary_key_index,
            s.store.unspent.filter (fun uo =>
              !(decide (ctx.hashOf uo ∈ q) && decide (ctx.hashOf uo ∉ validHashes outs))),
            s.store.invalid ++ s.store.unspent.filter (fun uo =>
              decide (ctx.hashOf uo ∈ q) && decide (ctx.hashOf uo ∉ validHashes outs)),
            s.store.pending⟩,
          s.key_manager_index, s.base_node_key_set,
          removeQuery resp.request_key s.pending_utxo_query_keys⟩,
         (s.store.unspent.filter (fun uo =>
            decide (ctx.hashOf uo ∈ q) && decide (ctx.hashOf uo ∉ validHashes outs))).map
           (fun uo => StoreEvent.invalidateOutput uo),
         [.receiveBaseNodeResponse resp.request_key], [], .ok ()⟩) := by
  refine ⟨?_, ?_⟩
  · intro ctx s resp outs hresp hlook
    simp [handle_base_node_response, hresp, hlook]
  · intro ctx s resp outs q hresp hval hlook hnd
    have hUnd : s.store.unspent.Nodup := hnd.of_map
    have hrr : removeResponseHashes (buildOutputHashes ctx s.store.unspent q) outs =
        .ok (((s.store.unspent.filter (fun uo => decide (ctx.hashOf uo ∈ q))).map
          (fun uo => (ctx.hashOf uo, uo))).filter
            (fun p => decide (p.1 ∉ validHashes outs))) := by
      rw [buildOutputHashes_eq ctx q s.store.unspent hnd,
        removeResponseHashes_ok outs _ hval]
    have hrem2 : ((s.store.unspent.filter (fun uo => decide (ctx.hashOf uo ∈ q))).map
          (fun uo => (ctx.hashOf uo, uo))).filter
            (fun p => decide (p.1 ∉ validHashes outs)) =
        (s.store.unspent.filter (fun uo =>
          decide (ctx.hashOf uo ∈ q) && decide (ctx.hashOf uo ∉ validHashes outs))).map
          (fun uo => (ctx.hashOf uo, uo)) := by
      rw [List.filter_map, List.filter_filter]
      refine congrArg _ ?_
      refine List.filter_congr ?_
      intro uo huo
      by_cases h1 : ctx.hashOf uo ∈ q
      · by_cases h2 : ctx.hashOf uo ∈ validHashes outs
        · simp [h1, h2]
        · simp [h1, h2]
      · by_cases h2 : ctx.hashOf uo ∈ validHashes outs
        · simp [h1, h2]
        · simp [h1, h2]
    have hcomp : ((fun p : Nat × UnblindedOutput => StoreEvent.invalidateOutput p.2) ∘
        (fun uo => (ctx.hashOf uo, uo))) = (fun uo => StoreEvent.invalidateOutput uo) := by
      funext uo
      rfl
    have hmnd : (s.store.unspent.filter (fun uo =>
        decide (ctx.hashOf uo ∈ q) && decide (ctx.hashOf uo ∉ validHashes outs))).Nodup :=
      hUnd.filter _
    have hsubm : ∀ x ∈ s.store.unspent.filter (fun uo =>
        decide (ctx.hashOf uo ∈ q) && decide (ctx.hashOf uo ∉ validHashes outs)),
        x ∈ s.store.unspent := fun x hx => (List.mem_filter.mp hx).1
    have hunspent : s.store.unspent.filter (fun uo =>
        decide (uo ∉ s.store.unspent.filter (fun uo2 =>
          decide (ctx.hashOf uo2 ∈ q) && decide (ctx.hashOf uo2 ∉ validHashes outs)))) =
        s.store.unspent.filter (fun uo =>
          !(decide (ctx.hashOf uo ∈ q) && decide (ctx.hashOf uo ∉ validHashes outs))) := by
      refine List.filter_congr ?_
      intro uo huo
      by_cases h1 : ctx.hashOf uo ∈ q
      · by_cases h2 : ctx.hashOf uo ∈ validHashes outs
        · simp [List.mem_filter, huo, h1, h2]
        · simp [List.mem_filter, huo, h1, h2]
      · by_cases h2 : ctx.hashOf uo ∈ validHashes outs
        · simp [List.mem_filter, huo, h1, h2]
        · simp [List.mem_filter, huo, h1, h2]
    simp only [handle_base_node_response, hresp, hlook, hrr, hrem2, List.map_map, hcomp]
    rw [applyTrace_invalidate _ _ hmnd hsubm hUnd, hunspent]

/-- C2, witness: the spec's invalidation scenario — outputs with hashes 1 and
2 queried under request key 9, the base node returns only hash 1: the output
of hash 2 moves to `Invalid`, the response entry is consumed and one
`ReceiveBaseNodeResponse(9)` event is published. -/
theorem claim_C2_witness :
    handle_base_node_response (constFeeCtx 10) sTwoQueried respOnlyHash1 =
      ⟨⟨⟨0, [⟨100, 1, 0⟩], [⟨200, 2, 0⟩], []⟩, 0, true, []⟩,
        [.invalidateOutput ⟨200, 2, 0⟩], [.receiveBaseNodeResponse 9], [], .ok ()⟩ :=
  claim_C2_base_node_response.2 (constFeeCtx 10) sTwoQueried respOnlyHash1 [.valid 1] [1, 2]
    rfl (by decide) (by decide) (by decide)
